import Mathlib

/-!
Verification of the pixel-accurate bipartite overlap evaluator of the
MathFinder repository (`BipartiteGraph.h`).  The repository ships only the
header (declarations, struct layouts and extensive commentary); the member
function bodies are not part of the sources, so every operation below is a
shallow embedding modelled from the natural-language specification and from
the header's own field documentation.  Machine integers are modelled as
`Nat` (all quantities are small non-negative counts), `double` ratios as
`Rat`, leptonica `PIX` images as width/height plus a color lookup function,
and the pixel-tracker overlay as a boolean function over coordinates.
-/

namespace MathFinder

/-- Modelled from the spec: a leptonica `PIX` raster image.  Only
`{width, height, colorAt(x,y)}` are relevant to the evaluator (spec §9);
colors are coded as naturals with `0` = white background. -/
structure Image where
  w : Nat
  h : Nat
  px : Nat → Nat → Nat

/-- A leptonica `BOX`: integer bounding box `(x, y, width, height)` over the
shared page coordinate space (spec §3). -/
structure BOX where
  x : Nat
  y : Nat
  w : Nat
  h : Nat
deriving DecidableEq

/-- The pixel-tracker overlay (spec §2 item 1): a per-image boolean marking
surface recording which coordinates have already been attributed. -/
def Tracker : Type := Nat → Nat → Bool

/-- A tracker with no coordinate marked. -/
def freshTracker : Tracker := fun _ _ => false

/-- Whether coordinate `p` lies inside box `b`. -/
def inBox (b : BOX) (p : Nat × Nat) : Bool :=
  decide (b.x ≤ p.1) && decide (p.1 < b.x + b.w) &&
  decide (b.y ≤ p.2) && decide (p.2 < b.y + b.h)

/-- Whether coordinate `p` lies inside some box of the list `bs`. -/
def inSomeBox (bs : List BOX) (p : Nat × Nat) : Bool :=
  bs.any (fun b => inBox b p)

/-- All pixel coordinates of a box, row-major. -/
def boxCoords (b : BOX) : List (Nat × Nat) :=
  ((List.range b.w) ×ˢ (List.range b.h)).map (fun d => (b.x + d.1, b.y + d.2))

/-- The box spanning a whole image. -/
def fullBox (img : Image) : BOX := ⟨0, 0, img.w, img.h⟩

/-- A box lies inside the bounds of a `w × h` image. -/
def boxInBounds (w h : Nat) (b : BOX) : Bool :=
  decide (b.x + b.w ≤ w) && decide (b.y + b.h ≤ h)

/-- Geometric intersection test of two boxes. -/
def boxesIntersect (a b : BOX) : Bool :=
  decide (max a.x b.x < min (a.x + a.w) (b.x + b.w)) &&
  decide (max a.y b.y < min (a.y + a.h) (b.y + b.h))

/-- The intersection rectangle of two boxes; degenerate (zero width or
height) exactly when the boxes do not geometrically intersect. -/
def interBox (a b : BOX) : BOX :=
  ⟨max a.x b.x, max a.y b.y,
   min (a.x + a.w) (b.x + b.w) - max a.x b.x,
   min (a.y + a.h) (b.y + b.h) - max a.y b.y⟩

/-- Modelled from the spec: the color filter of the classifier
(`countallnonewhite` in the header).  In type mode only the single color of
the evaluated region type matches; otherwise any non-background color
matches (spec §4.3). -/
def pixMatches (typemode : Bool) (color : Nat) (c : Nat) : Bool :=
  if typemode then c == color else c != 0

/-- State of one classification pass: the running count, the running
duplicate count, and the tracker overlay. -/
structure ClassifyResult where
  count : Nat
  dup : Nat
  tracker : Tracker

/-- Mark one coordinate on a tracker overlay. -/
def markPixel (x y : Nat) (t : Tracker) : Tracker :=
  fun a b => (a == x && b == y) || t a b

/-- Modelled from the spec: `BipartiteGraph::countAndTrackPixel` (header
lines 346-350, body not in the sources).  Increments the count and marks the
tracker if the coordinate is not yet marked; otherwise increments the
duplicate count and leaves everything else unchanged. -/
def countAndTrackPixel (x y : Nat) (st : ClassifyResult) : ClassifyResult :=
  if st.tracker x y then ⟨st.count, st.dup + 1, st.tracker⟩
  else ⟨st.count + 1, st.dup, markPixel x y st.tracker⟩

/-- One pixel step of the classifier (spec §4.3): skip pixels inside an
exclusion rectangle; otherwise, if the color matches, count-and-track. -/
def classifyStep (img : Image) (tm : Bool) (color : Nat) (excl : List BOX)
    (st : ClassifyResult) (p : Nat × Nat) : ClassifyResult :=
  if inSomeBox excl p then st
  else if pixMatches tm color (img.px p.1 p.2) then
    countAndTrackPixel p.1 p.2 st
  else st

/-- Modelled from the spec: `BipartiteGraph::countColorPixels` (header lines
335-344, body not in the sources).  Iterates every pixel coordinate inside
`b`, with exclusion rectangles and duplicate tracking (spec §4.3). -/
def countColorPixels (img : Image) (b : BOX) (tm : Bool) (color : Nat)
    (excl : List BOX) (t : Tracker) : ClassifyResult :=
  (boxCoords b).foldl (classifyStep img tm color excl) ⟨0, 0, t⟩

/-- Classify a sequence of boxes with the tracker overlay threaded through,
returning the per-box `(count, duplicateCount)` pairs and the final
tracker.  This is the duplicate-safe discipline shared by the vertex,
false-positive and false-negative counting passes. -/
def classifyBoxes (img : Image) (tm : Bool) (color : Nat) (excl : List BOX) :
    List BOX → Tracker → List (Nat × Nat) × Tracker
  | [], t => ([], t)
  | b :: bs, t =>
    let r := countColorPixels img b tm color excl t
    let rest := classifyBoxes img tm color excl bs r.tracker
    ((r.count, r.dup) :: rest.1, rest.2)

/-- A pixel "qualifies" for a classification pass when it is not excluded
and its color matches the filter. -/
def qualifies (img : Image) (tm : Bool) (color : Nat) (excl : List BOX)
    (p : Nat × Nat) : Bool :=
  !(inSomeBox excl p) && pixMatches tm color (img.px p.1 p.2)

/-- An edge of the bipartite graph (header lines 60-64): the opposite-side
partner is addressed by its stable index within its side's vertex sequence
(spec §9 design note), with the pixel-level intersection count and the area
of the rectangle intersection. -/
structure Edge where
  otherIndex : Nat
  pixfg_intersecting : Nat
  overlap_area : Nat
deriving DecidableEq

/-- A vertex of the bipartite graph (header lines 49-58): one detected
region with its rectangle, first-owner foreground count, recorded duplicate
count, area, stable index, and edge list. -/
structure Vertex where
  rect : BOX
  pix_foreground : Nat
  pix_foreground_duplicate : Nat
  area : Nat
  setindex : Nat
  edges : List Edge
deriving DecidableEq

def defaultBox : BOX := ⟨0, 0, 0, 0⟩

def defaultVertex : Vertex := ⟨defaultBox, 0, 0, 0, 0, []⟩

/-- Modelled from the spec: the caller-supplied input of one page
evaluation (header `GraphInput` plus the region-type filter): the two
images, the two parsed rectangle lists, and the color filter.  File paths
and debug directories of the C++ struct are external I/O concerns outside
the core (spec §1). -/
structure GraphInput where
  hypimg : Image
  gtimg : Image
  hypboxes : List BOX
  gtboxes : List BOX
  typemode : Bool
  color : Nat

/-- Modelled from the spec: `BipartiteGraph::makeEdges` pixel pass (header
lines 298-301, body not in the sources).  For each hypothesis box in turn,
classify the intersection rectangles with every groundtruth box — empty
intersections contribute a zero count — threading one tracker overlay
through all pairs so that no pixel is double counted across overlapping
pairs (spec §4.2).  Returns the row-major `(count, dup)` matrix. -/
def edgeRows (img : Image) (tm : Bool) (color : Nat) (gtboxes : List BOX) :
    List BOX → Tracker → List (List (Nat × Nat)) × Tracker
  | [], t => ([], t)
  | hb :: hbs, t =>
    let r := classifyBoxes img tm color [] (gtboxes.map (fun gb => interBox hb gb)) t
    let rest := edgeRows img tm color gtboxes hbs r.2
    (r.1 :: rest.1, rest.2)

/-- Edges of the hypothesis vertex with rectangle `hb` and edge-matrix row
`row`: one edge per groundtruth box that geometrically intersects it,
weighted by the intersection pixel count and overlap area (spec §4.2). -/
def mkHypVertexEdges (gtboxes : List BOX) (hb : BOX)
    (row : List (Nat × Nat)) : List Edge :=
  (List.range gtboxes.length).filterMap (fun j =>
    let gb := gtboxes.getD j defaultBox
    if boxesIntersect hb gb then
      some ⟨j, (row.getD j (0, 0)).1, (interBox hb gb).w * (interBox hb gb).h⟩
    else none)

/-- Edges of the groundtruth vertex with rectangle `gb` at column `j` of
the edge matrix: one edge per hypothesis box that geometrically intersects
it, mirroring the same weights onto this endpoint (spec §4.2). -/
def mkGtVertexEdges (hypboxes : List BOX) (gb : BOX)
    (rows : List (List (Nat × Nat))) (j : Nat) : List Edge :=
  (List.range hypboxes.length).filterMap (fun i =>
    let hb := hypboxes.getD i defaultBox
    if boxesIntersect hb gb then
      some ⟨i, ((rows.getD i []).getD j (0, 0)).1,
            (interBox hb gb).w * (interBox hb gb).h⟩
    else none)

/-- The bipartite graph: the hypothesis and groundtruth vertex sequences. -/
structure BipartiteGraph where
  Hypothesis : List Vertex
  GroundTruth : List Vertex
deriving DecidableEq

/-- Modelled from the spec: the per-box `(count, dup)` results of the
vertex pass of `makeVertices` for one side: every rectangle is classified
against this side's image with this side's tracker overlay threaded
through, no exclusions (spec §4.1). -/
def vertexCounts (img : Image) (tm : Bool) (color : Nat)
    (boxes : List BOX) : List (Nat × Nat) :=
  (classifyBoxes img tm color [] boxes freshTracker).1

/-- Modelled from the spec: `BipartiteGraph::makeVertices` together with
`makeEdges` (bodies not in the sources): one vertex per input rectangle in
input order, with area, first-owner foreground count, duplicate count and
its edge list (spec §4.1, §4.2). -/
def mkGraph (inp : GraphInput) : BipartiteGraph :=
  let hcounts := vertexCounts inp.hypimg inp.typemode inp.color inp.hypboxes
  let gcounts := vertexCounts inp.gtimg inp.typemode inp.color inp.gtboxes
  let rows := (edgeRows inp.hypimg inp.typemode inp.color inp.gtboxes
                inp.hypboxes freshTracker).1
  { Hypothesis := (List.range inp.hypboxes.length).map (fun i =>
      let hb := inp.hypboxes.getD i defaultBox
      { rect := hb
        pix_foreground := (hcounts.getD i (0, 0)).1
        pix_foreground_duplicate := (hcounts.getD i (0, 0)).2
        area := hb.w * hb.h
        setindex := i
        edges := mkHypVertexEdges inp.gtboxes hb (rows.getD i []) })
    GroundTruth := (List.range inp.gtboxes.length).map (fun j =>
      let gb := inp.gtboxes.getD j defaultBox
      { rect := gb
        pix_foreground := (gcounts.getD j (0, 0)).1
        pix_foreground_duplicate := (gcounts.getD j (0, 0)).2
        area := gb.w * gb.h
        setindex := j
        edges := mkGtVertexEdges inp.hypboxes gb rows j }) }

/-- Modelled from the spec: input validation performed once at
graph-construction time — the two images share the same pixel dimensions
and every rectangle of either list lies inside the image bounds (spec §7
InputMismatch). -/
def validInput (inp : GraphInput) : Bool :=
  inp.hypimg.w == inp.gtimg.w && inp.hypimg.h == inp.gtimg.h &&
  inp.hypboxes.all (boxInBounds inp.gtimg.w inp.gtimg.h) &&
  inp.gtboxes.all (boxInBounds inp.gtimg.w inp.gtimg.h)

/-- Modelled from the spec: the `BipartiteGraph` constructor — validation
happens first, before any vertex or edge work; on failure construction
fails atomically and no partially built graph is exposed (spec §7). -/
def buildBipartiteGraph (inp : GraphInput) : Except String BipartiteGraph :=
  if validInput inp then Except.ok (mkGraph inp)
  else Except.error "input mismatch"

/-- Division with the zero-denominator policy of the evaluator: a ratio
whose denominator is zero is reported as 0 (spec §7 NoData). -/
def divOr0 (a b : Rat) : Rat := if b = 0 then 0 else a / b

/-- Per-groundtruth-box weighting record (header lines 72-77). -/
structure GTBoxDescription where
  fg_pix_share : Rat
  area_share : Rat
deriving DecidableEq

/-- Whole-page groundtruth composition metrics (header lines 79-92). -/
structure GroundTruthMetrics where
  segmentations : Nat
  total_seg_fg_pixels : Nat
  total_nonseg_fg_pixels : Nat
  total_fg_pixels : Nat
  fg_pixel_share : Rat
  total_seg_area : Nat
  total_area : Nat
  area_share : Rat
  descriptions : List GTBoxDescription
deriving DecidableEq

/-- Modelled from the spec: `BipartiteGraph::getGroundTruthMetrics` (body
not in the sources): a single pass over the groundtruth vertices (spec
§4.4), with the zero-denominator policy on every ratio. -/
def getGroundTruthMetrics (inp : GraphInput) : GroundTruthMetrics :=
  let g := mkGraph inp
  let seg := g.GroundTruth.filter (fun v => !v.edges.isEmpty)
  let nonseg := g.GroundTruth.filter (fun v => v.edges.isEmpty)
  let segfg := (seg.map (fun v => v.pix_foreground)).sum
  let nonsegfg := (nonseg.map (fun v => v.pix_foreground)).sum
  let totalfg := (g.GroundTruth.map (fun v => v.pix_foreground)).sum
  let segarea := (seg.map (fun v => v.area)).sum
  let totalarea := inp.gtimg.w * inp.gtimg.h
  { segmentations := seg.length
    total_seg_fg_pixels := segfg
    total_nonseg_fg_pixels := nonsegfg
    total_fg_pixels := totalfg
    fg_pixel_share := divOr0 segfg totalfg
    total_seg_area := segarea
    total_area := totalarea
    area_share := divOr0 segarea totalarea
    descriptions := g.GroundTruth.map (fun v =>
      { fg_pix_share := divOr0 v.pix_foreground segfg
        area_share := divOr0 v.area segarea }) }

/-- Modelled from the spec: `countFalsePositives` applied to every
hypothesis box (header lines 317-321, body not in the sources): pixels of
the evaluated color in the hypothesis image inside each hypothesis box but
outside every groundtruth box, duplicate-tracked across the whole pass
(spec §4.3). -/
def hypFPcounts (inp : GraphInput) : List (Nat × Nat) :=
  (classifyBoxes inp.hypimg inp.typemode inp.color inp.gtboxes
    inp.hypboxes freshTracker).1

/-- Modelled from the spec: `countFalseNegatives` applied to every
groundtruth box (header lines 329-333, body not in the sources): pixels of
the evaluated color in the groundtruth image inside each groundtruth box
but outside every hypothesis box, duplicate-tracked across the whole pass
(spec §4.3). -/
def gtFNcounts (inp : GraphInput) : List (Nat × Nat) :=
  (classifyBoxes inp.gtimg inp.typemode inp.color inp.hypboxes
    inp.gtboxes freshTracker).1

/-- Total foreground pixels of the evaluated color over the entire
groundtruth image (header `total_fg_pix`). -/
def totalFgPix (inp : GraphInput) : Nat :=
  (countColorPixels inp.gtimg (fullBox inp.gtimg) inp.typemode inp.color
    [] freshTracker).count

/-- Modelled from the spec: `countTrueNegatives` (header lines 314-315,
body not in the sources): foreground pixels of the groundtruth image
claimed by neither side's rectangles — correctly unsegmented pixels. -/
def trueNegPix (inp : GraphInput) : Nat :=
  (countColorPixels inp.gtimg (fullBox inp.gtimg) inp.typemode inp.color
    (inp.hypboxes ++ inp.gtboxes) freshTracker).count

/-- The total negative pixels in the groundtruth: foreground pixels of the
groundtruth image lying outside every groundtruth rectangle.  This is the
denominator of fallout and specificity (header lines 145, 192-194). -/
def gtNegPix (inp : GraphInput) : Nat :=
  (countColorPixels inp.gtimg (fullBox inp.gtimg) inp.typemode inp.color
    inp.gtboxes freshTracker).count

/-- True positive pixels of a hypothesis vertex: the pixels counted across
its edges (spec §4.5). -/
def vertexTP (v : Vertex) : Nat :=
  (v.edges.map (fun e => e.pixfg_intersecting)).sum

/-- Total foreground pixels across the home groundtruth boxes of a
hypothesis vertex's edges — the denominator of its recall (spec §4.5). -/
def vertexGtFg (gtVerts : List Vertex) (v : Vertex) : Nat :=
  (v.edges.map (fun e =>
    (gtVerts.getD e.otherIndex defaultVertex).pix_foreground)).sum

/-- Per-hypothesis-region record (header lines 105-134). -/
structure RegionDescription where
  num_fg_pixels : Nat
  num_fg_pixels_duplicate : Nat
  area : Nat
  vert : Vertex
  recall' : Rat
  fallout : Rat
  precision : Rat
  false_discovery : Rat
  true_positive_pix : Nat
  false_positive_pix : Nat
  false_positive_pix_duplicate : Nat
  false_negative_pix : Nat
  num_gt_overlap : Nat
deriving DecidableEq

/-- Modelled from the spec: the per-region metrics of one hypothesis
vertex (spec §4.5), with `fp` the `(count, dup)` pair of its
false-positive pass and `nneg` the total negative pixels in the
groundtruth. -/
def mkRegionDescription (gtVerts : List Vertex) (nneg : Nat) (v : Vertex)
    (fp : Nat × Nat) : RegionDescription :=
  let tp := vertexTP v
  let gtfg := vertexGtFg gtVerts v
  { num_fg_pixels := v.pix_foreground
    num_fg_pixels_duplicate := v.pix_foreground_duplicate
    area := v.area
    vert := v
    recall' := divOr0 tp gtfg
    fallout := divOr0 fp.1 nneg
    precision := divOr0 tp v.pix_foreground
    false_discovery := divOr0 fp.1 (tp + fp.1)
    true_positive_pix := tp
    false_positive_pix := fp.1
    false_positive_pix_duplicate := fp.2
    false_negative_pix := gtfg - tp
    num_gt_overlap := v.edges.length }

/-- Per-groundtruth-region record (header lines 136-142). -/
structure OverlappingGTRegion where
  falsenegativepix : Nat
  falsenegativepix_duplicates : Nat
  numedges : Nat
deriving DecidableEq

/-- A hypothesis vertex is a correct segmentation iff it has exactly one
edge and that edge's intersecting pixel count covers all of the foreground
pixels of the matched groundtruth vertex (header lines 152-157). -/
def isCorrectSeg (gtVerts : List Vertex) (v : Vertex) : Bool :=
  match v.edges with
  | [e] => (gtVerts.getD e.otherIndex defaultVertex).pix_foreground ==
             e.pixfg_intersecting
  | _ => false

/-- Counters accumulated by the single pass over the hypothesis vertices. -/
structure SegCounters where
  correctsegmentations : Nat
  falsepositives : Nat
  undersegmentedcomponents : Nat
  undersegmentations : Nat
deriving DecidableEq

/-- Modelled from the spec: one step of the aggregation pass over the
hypothesis vertices (spec §4.5): a vertex with 0 edges increments the
false positives by 1, a vertex with at least 2 edges increments the
undersegmented components by 1 and the undersegmentations by its edge
count, and a correctly segmented vertex increments the correct
segmentations by 1. -/
def hypSegStep (gtVerts : List Vertex) (m : SegCounters) (v : Vertex) :
    SegCounters :=
  let k := v.edges.length
  { correctsegmentations :=
      if isCorrectSeg gtVerts v then m.correctsegmentations + 1
      else m.correctsegmentations
    falsepositives := if k = 0 then m.falsepositives + 1 else m.falsepositives
    undersegmentedcomponents :=
      if 2 ≤ k then m.undersegmentedcomponents + 1
      else m.undersegmentedcomponents
    undersegmentations :=
      if 2 ≤ k then m.undersegmentations + k else m.undersegmentations }

/-- Counters accumulated by the single pass over the groundtruth
vertices. -/
structure GtCounters where
  falsenegatives : Nat
  oversegmentedcomponents : Nat
  oversegmentations : Nat
deriving DecidableEq

/-- Modelled from the spec: one step of the aggregation pass over the
groundtruth vertices (spec §4.5): a vertex with 0 edges increments the
false negatives by 1; a vertex touched by at least 2 hypothesis vertices
increments the oversegmented components by 1 and the oversegmentations by
the number of hypothesis vertices overlapping it. -/
def gtSegStep (m : GtCounters) (v : Vertex) : GtCounters :=
  let k := v.edges.length
  { falsenegatives := if k = 0 then m.falsenegatives + 1 else m.falsenegatives
    oversegmentedcomponents :=
      if 2 ≤ k then m.oversegmentedcomponents + 1
      else m.oversegmentedcomponents
    oversegmentations :=
      if 2 ≤ k then m.oversegmentations + k else m.oversegmentations }

/-- Whole-page hypothesis accuracy metrics (header lines 151-211). -/
structure HypothesisMetrics where
  correctsegmentations : Nat
  total_gt_regions : Nat
  total_recall : Rat
  total_fallout : Rat
  total_precision : Rat
  total_fdr : Rat
  oversegmentations : Nat
  avg_oversegmentations_perbox : Rat
  undersegmentations : Nat
  avg_undersegmentations_perbox : Rat
  oversegmentedcomponents : Nat
  undersegmentedcomponents : Nat
  falsenegatives : Nat
  falsepositives : Nat
  negative_predictive_val : Rat
  specificity : Rat
  accuracy : Rat
  total_false_negative_pix : Nat
  total_false_positive_pix : Nat
  total_positive_fg_pix : Nat
  total_true_positive_fg_pix : Nat
  total_true_negative_fg_pix : Nat
  total_fg_pix : Nat
  total_negative_fg_pix : Nat
  boxes : List RegionDescription
  overlapgts : List OverlappingGTRegion
deriving DecidableEq

/-- The per-hypothesis-region records of one page evaluation. -/
def hypRegionDescs (inp : GraphInput) : List RegionDescription :=
  let g := mkGraph inp
  (List.range inp.hypboxes.length).map (fun i =>
    mkRegionDescription g.GroundTruth (gtNegPix inp)
      (g.Hypothesis.getD i defaultVertex) ((hypFPcounts inp).getD i (0, 0)))

/-- The per-groundtruth-region records of one page evaluation. -/
def gtOverlapRegions (inp : GraphInput) : List OverlappingGTRegion :=
  let g := mkGraph inp
  (List.range inp.gtboxes.length).map (fun j =>
    { falsenegativepix := ((gtFNcounts inp).getD j (0, 0)).1
      falsenegativepix_duplicates := ((gtFNcounts inp).getD j (0, 0)).2
      numedges := (g.GroundTruth.getD j defaultVertex).edges.length })

/-- Modelled from the spec: `BipartiteGraph::getHypothesisMetrics` (body
not in the sources): walks the completed bipartite graph once per side and
derives the whole-page hypothesis accuracy record (spec §4.5), with the
zero-denominator policy on every ratio. -/
def getHypothesisMetrics (inp : GraphInput) : HypothesisMetrics :=
  let g := mkGraph inp
  let descs := hypRegionDescs inp
  let ogts := gtOverlapRegions inp
  let hc := g.Hypothesis.foldl (hypSegStep g.GroundTruth) ⟨0, 0, 0, 0⟩
  let gc := g.GroundTruth.foldl gtSegStep ⟨0, 0, 0⟩
  let tp : Nat := (descs.map (fun d => d.true_positive_pix)).sum
  let fp : Nat := (descs.map (fun d => d.false_positive_pix)).sum
  let fn : Nat := (ogts.map (fun d => d.falsenegativepix)).sum
  let tn : Nat := trueNegPix inp
  let pos : Nat := (g.Hypothesis.map (fun v => v.pix_foreground)).sum
  let gtp : Nat := (g.GroundTruth.map (fun v => v.pix_foreground)).sum
  { correctsegmentations := hc.correctsegmentations
    total_gt_regions := inp.gtboxes.length
    total_recall := (descs.map (fun d => d.recall')).sum
    total_fallout := (descs.map (fun d => d.fallout)).sum
    total_precision := (descs.map (fun d => d.precision)).sum
    total_fdr := (descs.map (fun d => d.false_discovery)).sum
    oversegmentations := gc.oversegmentations
    avg_oversegmentations_perbox :=
      divOr0 gc.oversegmentations gc.oversegmentedcomponents
    undersegmentations := hc.undersegmentations
    avg_undersegmentations_perbox :=
      divOr0 hc.undersegmentations hc.undersegmentedcomponents
    oversegmentedcomponents := gc.oversegmentedcomponents
    undersegmentedcomponents := hc.undersegmentedcomponents
    falsenegatives := gc.falsenegatives
    falsepositives := hc.falsepositives
    negative_predictive_val := divOr0 tn (tn + fn)
    specificity := divOr0 tn (gtNegPix inp)
    accuracy := divOr0 (tp + tn) (gtp + gtNegPix inp)
    total_false_negative_pix := fn
    total_false_positive_pix := fp
    total_positive_fg_pix := pos
    total_true_positive_fg_pix := tp
    total_true_negative_fg_pix := tn
    total_fg_pix := totalFgPix inp
    total_negative_fg_pix := tn + fn
    boxes := descs
    overlapgts := ogts }

/-- The state owned by one `BipartiteGraph` instance: its graph and the
two metric records recomputed in full at every (re)build (spec §3). -/
structure GraphState where
  graph : BipartiteGraph
  hypmetrics : HypothesisMetrics
  gtmetrics : GroundTruthMetrics
deriving DecidableEq

/-- Modelled from the spec: clear the instance, then reconstruct the graph
and recompute both metric records in full from the given input; no state
of the previous build survives (spec §3 lifecycle, §8 idempotence). -/
def rebuild (_s : GraphState) (inp : GraphInput) : GraphState :=
  { graph := mkGraph inp
    hypmetrics := getHypothesisMetrics inp
    gtmetrics := getGroundTruthMetrics inp }

/-- Whether the hypothesis image's pixel at `p` matches the color filter. -/
def matchHyp (inp : GraphInput) (p : Nat × Nat) : Bool :=
  pixMatches inp.typemode inp.color (inp.hypimg.px p.1 p.2)

/-- Whether the groundtruth image's pixel at `p` matches the color filter. -/
def matchGt (inp : GraphInput) (p : Nat × Nat) : Bool :=
  pixMatches inp.typemode inp.color (inp.gtimg.px p.1 p.2)

/-- The two input images are consistently colored: at every in-bounds
coordinate the hypothesis image matches the color filter exactly when the
groundtruth image does (spec §8, "when both images are consistently
colored"). -/
def consistentImages (inp : GraphInput) : Bool :=
  (boxCoords (fullBox inp.gtimg)).all (fun p => matchHyp inp p == matchGt inp p)

/-- Every foreground pixel of the groundtruth image lies inside some
groundtruth rectangle: the rectangle list delimits all colored regions
(spec §6 input contract). -/
def gtCoversAllFg (inp : GraphInput) : Bool :=
  (boxCoords (fullBox inp.gtimg)).all (fun p =>
    !matchGt inp p || inSomeBox inp.gtboxes p)

/-- All pixel coordinates of a `W × H` image, as a finite set. -/
def allPix (W H : Nat) : Finset (Nat × Nat) := Finset.range W ×ˢ Finset.range H

/-- A coordinate is covered by some geometrically intersecting
hypothesis/groundtruth box pair. -/
def pairCovered (hypboxes gtboxes : List BOX) (p : Nat × Nat) : Bool :=
  hypboxes.any (fun hb => gtboxes.any (fun gb => inBox (interBox hb gb) p))

/-- A concrete page for witnesses: a 4×2 image entirely colored `1`, one
hypothesis rectangle covering the page, two disjoint groundtruth
rectangles splitting it. -/
def pageInput : GraphInput :=
  ⟨⟨4, 2, fun _ _ => 1⟩, ⟨4, 2, fun _ _ => 1⟩,
   [⟨0, 0, 4, 2⟩], [⟨0, 0, 2, 2⟩, ⟨2, 0, 2, 2⟩], true, 1⟩

/-- A concrete page with a nonzero negative-pixel denominator: a 2×1 image
colored `1`, with one matching hypothesis and groundtruth rectangle over
the left pixel only. -/
def negInput : GraphInput :=
  ⟨⟨2, 1, fun _ _ => 1⟩, ⟨2, 1, fun _ _ => 1⟩,
   [⟨0, 0, 1, 1⟩], [⟨0, 0, 1, 1⟩], true, 1⟩

/-- A degenerate page: 1×1 all-background images and empty rectangle
lists. -/
def emptyInput : GraphInput :=
  ⟨⟨1, 1, fun _ _ => 0⟩, ⟨1, 1, fun _ _ => 0⟩, [], [], true, 1⟩

/-- An invalid input: the two images have different widths. -/
def badInput : GraphInput :=
  ⟨⟨1, 1, fun _ _ => 0⟩, ⟨2, 1, fun _ _ => 0⟩, [], [], true, 1⟩

/-! ### Basic geometry lemmas -/

theorem inBox_iff (b : BOX) (p : Nat × Nat) :
    inBox b p = true ↔
      b.x ≤ p.1 ∧ p.1 < b.x + b.w ∧ b.y ≤ p.2 ∧ p.2 < b.y + b.h := by
  simp [inBox, and_assoc]

theorem mem_boxCoords (b : BOX) (p : Nat × Nat) :
    p ∈ boxCoords b ↔ inBox b p = true := by
  simp only [boxCoords, List.mem_map, Prod.exists, List.mem_product,
    List.mem_range, inBox_iff]
  constructor
  · rintro ⟨dx, dy, ⟨hdx, hdy⟩, rfl⟩
    omega
  · rintro ⟨h1, h2, h3, h4⟩
    exact ⟨p.1 - b.x, p.2 - b.y, ⟨by omega, by omega⟩,
      Prod.ext (by simp; omega) (by simp; omega)⟩

theorem nodup_boxCoords (b : BOX) : (boxCoords b).Nodup := by
  refine List.Nodup.map ?_ (List.Nodup.product (List.nodup_range _) (List.nodup_range _))
  intro d1 d2 h
  have h1 : b.x + d1.1 = b.x + d2.1 := congrArg Prod.fst h
  have h2 : b.y + d1.2 = b.y + d2.2 := congrArg Prod.snd h
  exact Prod.ext (by omega) (by omega)

theorem inBox_interBox (a b : BOX) (p : Nat × Nat) :
    inBox (interBox a b) p = true ↔ (inBox a p = true ∧ inBox b p = true) := by
  simp only [inBox_iff, interBox]
  omega

theorem boxesIntersect_iff (a b : BOX) :
    boxesIntersect a b = true ↔ ∃ p, inBox a p = true ∧ inBox b p = true := by
  simp only [boxesIntersect, Bool.and_eq_true, decide_eq_true_eq]
  constructor
  · rintro ⟨h1, h2⟩
    exact ⟨(max a.x b.x, max a.y b.y), by simp [inBox_iff]; omega⟩
  · rintro ⟨p, h1, h2⟩
    rw [inBox_iff] at h1 h2
    omega

theorem interBox_degenerate (a b : BOX) (h : boxesIntersect a b = false) :
    boxCoords (interBox a b) = [] := by
  rw [List.eq_nil_iff_forall_not_mem]
  intro p hp
  rw [mem_boxCoords, inBox_interBox] at hp
  have : boxesIntersect a b = true := (boxesIntersect_iff a b).2 ⟨p, hp⟩
  simp [this] at h

theorem inBox_bounds (W H : Nat) (b : BOX) (p : Nat × Nat)
    (hb : boxInBounds W H b = true) (hp : inBox b p = true) :
    p.1 < W ∧ p.2 < H := by
  simp only [boxInBounds, Bool.and_eq_true, decide_eq_true_eq] at hb
  rw [inBox_iff] at hp
  omega

theorem interBox_inBounds (W H : Nat) (a b : BOX)
    (ha : boxInBounds W H a = true) (hb : boxInBounds W H b = true) :
    boxInBounds W H (interBox a b) = true := by
  simp only [boxInBounds, Bool.and_eq_true, decide_eq_true_eq] at ha hb ⊢
  simp only [interBox]
  omega

theorem inSomeBox_append (bs cs : List BOX) (p : Nat × Nat) :
    inSomeBox (bs ++ cs) p = (inSomeBox bs p || inSomeBox cs p) := by
  simp [inSomeBox]

theorem inSomeBox_nil (p : Nat × Nat) : inSomeBox [] p = false := rfl

theorem inSomeBox_cons (b : BOX) (bs : List BOX) (p : Nat × Nat) :
    inSomeBox (b :: bs) p = (inBox b p || inSomeBox bs p) := by
  simp [inSomeBox]

/-! ### The pixel classifier: fold characterization -/

theorem classifyStep_excluded (img : Image) (tm : Bool) (color : Nat)
    (excl : List BOX) (st : ClassifyResult) (p : Nat × Nat)
    (h : inSomeBox excl p = true) :
    classifyStep img tm color excl st p = st := by
  simp [classifyStep, h]

theorem classifyStep_no_match (img : Image) (tm : Bool) (color : Nat)
    (excl : List BOX) (st : ClassifyResult) (p : Nat × Nat)
    (h : pixMatches tm color (img.px p.1 p.2) = false) :
    classifyStep img tm color excl st p = st := by
  by_cases he : inSomeBox excl p = true <;> simp [classifyStep, he, h]

theorem classifyStep_count (img : Image) (tm : Bool) (color : Nat)
    (excl : List BOX) (st : ClassifyResult) (p : Nat × Nat)
    (he : inSomeBox excl p = false)
    (hm : pixMatches tm color (img.px p.1 p.2) = true)
    (ht : st.tracker p.1 p.2 = false) :
    classifyStep img tm color excl st p =
      ⟨st.count + 1, st.dup, markPixel p.1 p.2 st.tracker⟩ := by
  simp [classifyStep, he, hm, countAndTrackPixel, ht]

theorem classifyStep_dup (img : Image) (tm : Bool) (color : Nat)
    (excl : List BOX) (st : ClassifyResult) (p : Nat × Nat)
    (he : inSomeBox excl p = false)
    (hm : pixMatches tm color (img.px p.1 p.2) = true)
    (ht : st.tracker p.1 p.2 = true) :
    classifyStep img tm color excl st p = ⟨st.count, st.dup + 1, st.tracker⟩ := by
  simp [classifyStep, he, hm, countAndTrackPixel, ht]

theorem markPixel_eq (x y a b : Nat) (t : Tracker) :
    markPixel x y t a b = ((a == x && b == y) || t a b) := rfl

theorem markPixel_ne (x y : Nat) (t : Tracker) (p : Nat × Nat)
    (h : p ≠ (x, y)) : markPixel x y t p.1 p.2 = t p.1 p.2 := by
  have : ¬(p.1 = x ∧ p.2 = y) := by
    intro hc
    exact h (Prod.ext hc.1 hc.2)
  rw [markPixel_eq]
  by_cases h1 : p.1 = x <;> by_cases h2 : p.2 = y <;> simp_all

theorem foldl_classifyStep_spec (img : Image) (tm : Bool) (color : Nat)
    (excl : List BOX) (l : List (Nat × Nat)) (hl : l.Nodup)
    (st : ClassifyResult) :
    ((l.foldl (classifyStep img tm color excl) st).count
        = st.count + l.countP (fun p =>
            qualifies img tm color excl p && !st.tracker p.1 p.2))
    ∧ ((l.foldl (classifyStep img tm color excl) st).dup
        = st.dup + l.countP (fun p =>
            qualifies img tm color excl p && st.tracker p.1 p.2))
    ∧ (∀ x y, (l.foldl (classifyStep img tm color excl) st).tracker x y
        = (st.tracker x y ||
            (decide ((x, y) ∈ l) && qualifies img tm color excl (x, y)))) := by
  induction l generalizing st with
  | nil => simp
  | cons a l ih =>
    have hal : a ∉ l := (List.nodup_cons.1 hl).1
    have hln : l.Nodup := (List.nodup_cons.1 hl).2
    by_cases he : inSomeBox excl a = true
    · -- excluded pixel: the step is the identity and the pixel never counts
      have hq : qualifies img tm color excl a = false := by
        simp [qualifies, he]
      have hstep : classifyStep img tm color excl st a = st :=
        classifyStep_excluded _ _ _ _ _ _ he
      have := ih hln st
      refine ⟨?_, ?_, ?_⟩
      · simp only [List.foldl_cons, hstep, List.countP_cons, hq, this.1]
        simp
      · simp only [List.foldl_cons, hstep, List.countP_cons, hq, this.2.1]
        simp
      · intro x y
        simp only [List.foldl_cons, hstep, this.2.2 x y, List.mem_cons]
        by_cases hxy : (x, y) = a
        · subst hxy
          simp [hq]
        · simp [hxy]
    · have he' : inSomeBox excl a = false := by simp at he; exact he
      by_cases hm : pixMatches tm color (img.px a.1 a.2) = true
      · have hq : qualifies img tm color excl a = true := by
          simp [qualifies, he', hm]
        by_cases ht : st.tracker a.1 a.2 = true
        · -- already marked: duplicate
          have hstep : classifyStep img tm color excl st a =
              ⟨st.count, st.dup + 1, st.tracker⟩ :=
            classifyStep_dup _ _ _ _ _ _ he' hm ht
          have := ih hln ⟨st.count, st.dup + 1, st.tracker⟩
          refine ⟨?_, ?_, ?_⟩
          · simp only [List.foldl_cons, hstep, List.countP_cons, this.1, hq, ht]
            simp
          · simp only [List.foldl_cons, hstep, List.countP_cons, this.2.1, hq, ht]
            simp [Nat.add_assoc, Nat.add_comm 1]
          · intro x y
            simp only [List.foldl_cons, hstep, this.2.2 x y, List.mem_cons]
            by_cases hxy : (x, y) = a
            · subst hxy
              simp [ht]
            · simp [hxy]
        · -- fresh pixel: counted and marked
          have ht' : st.tracker a.1 a.2 = false := by simp at ht; exact ht
          have hstep : classifyStep img tm color excl st a =
              ⟨st.count + 1, st.dup, markPixel a.1 a.2 st.tracker⟩ :=
            classifyStep_count _ _ _ _ _ _ he' hm ht'
          have := ih hln ⟨st.count + 1, st.dup, markPixel a.1 a.2 st.tracker⟩
          have hcongr : ∀ (bb : Bool), l.countP (fun p =>
              qualifies img tm color excl p &&
                (bb == (markPixel a.1 a.2 st.tracker p.1 p.2))) =
              l.countP (fun p =>
                qualifies img tm color excl p && (bb == st.tracker p.1 p.2)) := by
            intro bb
            apply List.countP_congr
            intro p hp
            have hpa : p ≠ a := fun hc => hal (hc ▸ hp)
            rw [markPixel_ne a.1 a.2 st.tracker p ?_]
            intro hc
            exact hpa (hc.trans (Prod.mk.eta))
          refine ⟨?_, ?_, ?_⟩
          · have h1 := this.1
            simp only [List.foldl_cons, hstep]
            rw [h1, List.countP_cons]
            have : l.countP (fun p => qualifies img tm color excl p &&
                !markPixel a.1 a.2 st.tracker p.1 p.2) =
                l.countP (fun p => qualifies img tm color excl p &&
                  !st.tracker p.1 p.2) := by
              apply List.countP_congr
              intro p hp
              have hpa : p ≠ a := fun hc => hal (hc ▸ hp)
              rw [markPixel_ne a.1 a.2 st.tracker p ?_]
              intro hc
              exact hpa (hc.trans (Prod.mk.eta))
            rw [this]
            simp [hq, ht']
            omega
          · have h2 := this.2.1
            simp only [List.foldl_cons, hstep]
            rw [h2, List.countP_cons]
            have : l.countP (fun p => qualifies img tm color excl p &&
                markPixel a.1 a.2 st.tracker p.1 p.2) =
                l.countP (fun p => qualifies img tm color excl p &&
                  st.tracker p.1 p.2) := by
              apply List.countP_congr
              intro p hp
              have hpa : p ≠ a := fun hc => hal (hc ▸ hp)
              rw [markPixel_ne a.1 a.2 st.tracker p ?_]
              intro hc
              exact hpa (hc.trans (Prod.mk.eta))
            rw [this]
            simp [hq, ht']
          · intro x y
            simp only [List.foldl_cons, hstep, this.2.2 x y, List.mem_cons]
            by_cases hxy : (x, y) = a
            · have : markPixel a.1 a.2 st.tracker x y = true := by
                have hx : x = a.1 := congrArg Prod.fst hxy
                have hy : y = a.2 := congrArg Prod.snd hxy
                simp [markPixel_eq, hx, hy]
              simp [this, hxy, hq, ht']
            · have : markPixel a.1 a.2 st.tracker x y = st.tracker x y :=
                markPixel_ne a.1 a.2 st.tracker (x, y) hxy
              simp [this, hxy]
      · -- color does not match: the step is the identity
        have hm' : pixMatches tm color (img.px a.1 a.2) = false := by
          simp at hm; exact hm
        have hq : qualifies img tm color excl a = false := by
          simp [qualifies, hm']
        have hstep : classifyStep img tm color excl st a = st :=
          classifyStep_no_match _ _ _ _ _ _ hm'
        have := ih hln st
        refine ⟨?_, ?_, ?_⟩
        · simp only [List.foldl_cons, hstep, List.countP_cons, hq, this.1]
          simp
        · simp only [List.foldl_cons, hstep, List.countP_cons, hq, this.2.1]
          simp
        · intro x y
          simp only [List.foldl_cons, hstep, this.2.2 x y, List.mem_cons]
          by_cases hxy : (x, y) = a
          · subst hxy
            simp [hq]
          · simp [hxy]

theorem countColorPixels_count (img : Image) (tm : Bool) (color : Nat)
    (excl : List BOX) (b : BOX) (t : Tracker) :
    (countColorPixels img b tm color excl t).count =
      (boxCoords b).countP (fun p =>
        qualifies img tm color excl p && !t p.1 p.2) := by
  have := (foldl_classifyStep_spec img tm color excl (boxCoords b)
    (nodup_boxCoords b) ⟨0, 0, t⟩).1
  simpa [countColorPixels] using this

theorem countColorPixels_dup (img : Image) (tm : Bool) (color : Nat)
    (excl : List BOX) (b : BOX) (t : Tracker) :
    (countColorPixels img b tm color excl t).dup =
      (boxCoords b).countP (fun p =>
        qualifies img tm color excl p && t p.1 p.2) := by
  have := (foldl_classifyStep_spec img tm color excl (boxCoords b)
    (nodup_boxCoords b) ⟨0, 0, t⟩).2.1
  simpa [countColorPixels] using this

theorem countColorPixels_tracker (img : Image) (tm : Bool) (color : Nat)
    (excl : List BOX) (b : BOX) (t : Tracker) (x y : Nat) :
    (countColorPixels img b tm color excl t).tracker x y =
      (t x y || (inBox b (x, y) && qualifies img tm color excl (x, y))) := by
  have := (foldl_classifyStep_spec img tm color excl (boxCoords b)
    (nodup_boxCoords b) ⟨0, 0, t⟩).2.2 x y
  rw [countColorPixels, this]
  by_cases h : inBox b (x, y) = true <;> simp [mem_boxCoords, h]

/-! ### Bridging list counting to Finset cardinality -/

theorem mem_allPix (W H : Nat) (p : Nat × Nat) :
    p ∈ allPix W H ↔ p.1 < W ∧ p.2 < H := by
  simp [allPix, Finset.mem_product]

theorem countP_boxCoords_eq_card (W H : Nat) (b : BOX)
    (hb : boxInBounds W H b = true) (φ : Nat × Nat → Bool) :
    (boxCoords b).countP φ =
      ((allPix W H).filter (fun p => (inBox b p && φ p) = true)).card := by
  rw [List.countP_eq_length_filter]
  rw [← List.toFinset_card_of_nodup ((nodup_boxCoords b).filter φ)]
  congr 1
  ext p
  simp only [List.mem_toFinset, List.mem_filter, mem_boxCoords,
    Finset.mem_filter, mem_allPix, Bool.and_eq_true]
  constructor
  · rintro ⟨h1, h2⟩
    exact ⟨inBox_bounds W H b p hb h1, h1, h2⟩
  · rintro ⟨-, h1, h2⟩
    exact ⟨h1, h2⟩

theorem filter_union_split (W H : Nat) (A B Q T : Nat × Nat → Bool) :
    ((allPix W H).filter (fun p => ((A p || B p) && Q p && !T p) = true)).card
      = ((allPix W H).filter (fun p => (A p && (Q p && !T p)) = true)).card
        + ((allPix W H).filter (fun p =>
            (B p && Q p && !(T p || (A p && Q p))) = true)).card := by
  rw [← Finset.card_union_of_disjoint ?_]
  · congr 1
    ext p
    simp only [Finset.mem_union, Finset.mem_filter, mem_allPix]
    by_cases h1 : A p = true <;> by_cases h2 : B p = true <;>
      by_cases h3 : Q p = true <;> by_cases h4 : T p = true <;>
      simp [h1, h2, h3, h4]
  · rw [Finset.disjoint_left]
    intro p hp1 hp2
    simp only [Finset.mem_filter] at hp1 hp2
    by_cases h1 : A p = true <;> by_cases h3 : Q p = true <;>
      simp [h1, h3] at hp1 hp2

/-! ### The threaded multi-box classification pass -/

theorem classifyBoxes_length (img : Image) (tm : Bool) (color : Nat)
    (excl : List BOX) (bs : List BOX) (t : Tracker) :
    (classifyBoxes img tm color excl bs t).1.length = bs.length := by
  induction bs generalizing t with
  | nil => rfl
  | cons b bs ih => simp [classifyBoxes, ih]

theorem classifyBoxes_tracker (img : Image) (tm : Bool) (color : Nat)
    (excl : List BOX) (bs : List BOX) (t : Tracker) (x y : Nat) :
    (classifyBoxes img tm color excl bs t).2 x y =
      (t x y || (inSomeBox bs (x, y) && qualifies img tm color excl (x, y))) := by
  induction bs generalizing t with
  | nil => simp [classifyBoxes, inSomeBox_nil]
  | cons b bs ih =>
    show (classifyBoxes img tm color excl bs
      (countColorPixels img b tm color excl t).tracker).2 x y = _
    rw [ih, countColorPixels_tracker, inSomeBox_cons]
    by_cases h1 : inBox b (x, y) = true <;>
      by_cases h2 : inSomeBox bs (x, y) = true <;>
      by_cases h3 : qualifies img tm color excl (x, y) = true <;>
      simp [h1, h2, h3]

theorem classifyBoxes_count_sum (W H : Nat) (img : Image) (tm : Bool)
    (color : Nat) (excl : List BOX) (bs : List BOX) (t : Tracker)
    (hbs : ∀ b ∈ bs, boxInBounds W H b = true) :
    (((classifyBoxes img tm color excl bs t).1.map Prod.fst).sum)
      = ((allPix W H).filter (fun p =>
          (inSomeBox bs p && qualifies img tm color excl p &&
            !t p.1 p.2) = true)).card := by
  induction bs generalizing t with
  | nil =>
    simp [classifyBoxes, inSomeBox_nil]
  | cons b bs ih =>
    have hb : boxInBounds W H b = true := hbs b (List.mem_cons_self b bs)
    have hbs' : ∀ b' ∈ bs, boxInBounds W H b' = true :=
      fun b' h => hbs b' (List.mem_cons_of_mem b h)
    show (countColorPixels img b tm color excl t).count +
        ((classifyBoxes img tm color excl bs
          (countColorPixels img b tm color excl t).tracker).1.map Prod.fst).sum = _
    rw [ih _ hbs']
    rw [countColorPixels_count,
      countP_boxCoords_eq_card W H b hb]
    have hsplit := filter_union_split W H (fun p => inBox b p)
      (fun p => inSomeBox bs p) (fun p => qualifies img tm color excl p)
      (fun p => t p.1 p.2)
    have hcongr : (allPix W H).filter (fun p =>
        (inSomeBox bs p && qualifies img tm color excl p &&
          !(countColorPixels img b tm color excl t).tracker p.1 p.2) = true)
        = (allPix W H).filter (fun p =>
          (inSomeBox bs p && qualifies img tm color excl p &&
            !(t p.1 p.2 || (inBox b p && qualifies img tm color excl p))) = true) := by
      apply Finset.filter_congr
      intro p _
      rw [countColorPixels_tracker]
    rw [hcongr]
    have hfin : (allPix W H).filter (fun p =>
        (inSomeBox (b :: bs) p && qualifies img tm color excl p &&
          !t p.1 p.2) = true) = (allPix W H).filter (fun p =>
        ((inBox b p || inSomeBox bs p) && qualifies img tm color excl p &&
          !t p.1 p.2) = true) := by
      apply Finset.filter_congr
      intro p _
      rw [inSomeBox_cons]
    rw [hfin, hsplit]

theorem classifyBoxes_dup_zero (img : Image) (tm : Bool) (color : Nat)
    (excl : List BOX) (bs : List BOX) (t : Tracker)
    (hdisj : bs.Pairwise (fun a b => boxesIntersect a b = false))
    (ht : ∀ p : Nat × Nat, t p.1 p.2 = true → ∀ b ∈ bs, inBox b p = false) :
    ∀ q ∈ (classifyBoxes img tm color excl bs t).1, q.2 = 0 := by
  induction bs generalizing t with
  | nil => intro q hq; simp [classifyBoxes] at hq
  | cons b bs ih =>
    intro q hq
    have hd1 : ∀ b' ∈ bs, boxesIntersect b b' = false :=
      (List.pairwise_cons.1 hdisj).1
    have hd2 : bs.Pairwise (fun a b => boxesIntersect a b = false) :=
      (List.pairwise_cons.1 hdisj).2
    rw [show classifyBoxes img tm color excl (b :: bs) t =
      (((countColorPixels img b tm color excl t).count,
        (countColorPixels img b tm color excl t).dup) ::
        (classifyBoxes img tm color excl bs
          (countColorPixels img b tm color excl t).tracker).1,
       (classifyBoxes img tm color excl bs
          (countColorPixels img b tm color excl t).tracker).2) from rfl] at hq
    rcases List.mem_cons.1 hq with hq | hq
    · subst hq
      show (countColorPixels img b tm color excl t).dup = 0
      rw [countColorPixels_dup, List.countP_eq_zero]
      intro p hp
      have hpb : inBox b p = true := (mem_boxCoords b p).1 hp
      have : t p.1 p.2 = false := by
        by_cases h : t p.1 p.2 = true
        · have := ht p h b (List.mem_cons_self b bs)
          rw [this] at hpb
          exact absurd hpb (by simp)
        · simpa using h
      simp [this]
    · refine ih _ hd2 ?_ q hq
      intro p hp b' hb'
      rw [countColorPixels_tracker] at hp
      rcases Bool.or_eq_true_iff.1 hp with hp | hp
      · exact ht p hp b' (List.mem_cons_of_mem b hb')
      · have hpb : inBox b p = true := by
          simp only [Bool.and_eq_true] at hp
          exact hp.1
        by_cases hc : inBox b' p = true
        · have : boxesIntersect b b' = true :=
            (boxesIntersect_iff b b').2 ⟨p, hpb, hc⟩
          rw [hd1 b' hb'] at this
          exact absurd this (by simp)
        · simpa using hc

theorem classifyBoxes_getD_exists (img : Image) (tm : Bool) (color : Nat)
    (excl : List BOX) (bs : List BOX) (t : Tracker) (j : Nat)
    (hj : j < bs.length) :
    ∃ t', ((classifyBoxes img tm color excl bs t).1.getD j (0, 0))
      = ((countColorPixels img (bs.getD j defaultBox) tm color excl t').count,
         (countColorPixels img (bs.getD j defaultBox) tm color excl t').dup) := by
  induction bs generalizing j t with
  | nil => exact absurd hj (by simp)
  | cons b bs ih =>
    cases j with
    | zero => exact ⟨t, rfl⟩
    | succ j =>
      have hj' : j < bs.length := by simpa using hj
      exact ih _ j hj'

theorem classifyBoxes_getD_degenerate (img : Image) (tm : Bool) (color : Nat)
    (excl : List BOX) (bs : List BOX) (t : Tracker) (j : Nat)
    (hj : j < bs.length) (hdeg : boxCoords (bs.getD j defaultBox) = []) :
    ((classifyBoxes img tm color excl bs t).1.getD j (0, 0)) = (0, 0) := by
  obtain ⟨t', ht'⟩ := classifyBoxes_getD_exists img tm color excl bs t j hj
  rw [ht']
  rw [show countColorPixels img (bs.getD j defaultBox) tm color excl t' =
    (boxCoords (bs.getD j defaultBox)).foldl
      (classifyStep img tm color excl) ⟨0, 0, t'⟩ from rfl, hdeg]
  rfl

/-! ### The edge matrix pass -/

theorem pairCovered_eq (hbs gbs : List BOX) (p : Nat × Nat) :
    pairCovered hbs gbs p = (inSomeBox hbs p && inSomeBox gbs p) := by
  rw [Bool.eq_iff_iff]
  simp only [pairCovered, inSomeBox, List.any_eq_true, Bool.and_eq_true]
  constructor
  · rintro ⟨hb, hhb, gb, hgb, hp⟩
    have := (inBox_interBox hb gb p).1 hp
    exact ⟨⟨hb, hhb, this.1⟩, ⟨gb, hgb, this.2⟩⟩
  · rintro ⟨⟨hb, hhb, h1⟩, ⟨gb, hgb, h2⟩⟩
    exact ⟨hb, hhb, gb, hgb, (inBox_interBox hb gb p).2 ⟨h1, h2⟩⟩

theorem inSomeBox_map_interBox (hb : BOX) (gbs : List BOX) (p : Nat × Nat) :
    inSomeBox (gbs.map (fun gb => interBox hb gb)) p =
      gbs.any (fun gb => inBox (interBox hb gb) p) := by
  rw [inSomeBox, List.any_map]
  rfl

theorem edgeRows_length (img : Image) (tm : Bool) (color : Nat)
    (gtboxes : List BOX) (hbs : List BOX) (t : Tracker) :
    (edgeRows img tm color gtboxes hbs t).1.length = hbs.length := by
  induction hbs generalizing t with
  | nil => rfl
  | cons hb hbs ih => simp [edgeRows, ih]

theorem edgeRows_row_length (img : Image) (tm : Bool) (color : Nat)
    (gtboxes : List BOX) (hbs : List BOX) (t : Tracker) :
    ∀ row ∈ (edgeRows img tm color gtboxes hbs t).1,
      row.length = gtboxes.length := by
  induction hbs generalizing t with
  | nil => intro r hr; simp [edgeRows] at hr
  | cons hb hbs ih =>
    intro r hr
    rcases List.mem_cons.1 hr with hr | hr
    · subst hr
      rw [classifyBoxes_length]
      simp
    · exact ih _ r hr

theorem edgeRows_tracker (img : Image) (tm : Bool) (color : Nat)
    (gtboxes : List BOX) (hbs : List BOX) (t : Tracker) (x y : Nat) :
    (edgeRows img tm color gtboxes hbs t).2 x y =
      (t x y || (pairCovered hbs gtboxes (x, y) &&
        qualifies img tm color [] (x, y))) := by
  induction hbs generalizing t with
  | nil => simp [edgeRows, pairCovered]
  | cons hb hbs ih =>
    show (edgeRows img tm color gtboxes hbs
      (classifyBoxes img tm color []
        (gtboxes.map (fun gb => interBox hb gb)) t).2).2 x y = _
    rw [ih, classifyBoxes_tracker, inSomeBox_map_interBox]
    have hcov : pairCovered (hb :: hbs) gtboxes (x, y) =
        (gtboxes.any (fun gb => inBox (interBox hb gb) (x, y)) ||
          pairCovered hbs gtboxes (x, y)) := by
      simp [pairCovered]
    rw [hcov]
    by_cases h1 : gtboxes.any (fun gb => inBox (interBox hb gb) (x, y)) = true <;>
      by_cases h2 : pairCovered hbs gtboxes (x, y) = true <;>
      by_cases h3 : qualifies img tm color [] (x, y) = true <;>
      simp [h1, h2, h3]

theorem edgeRows_count_sum (W H : Nat) (img : Image) (tm : Bool) (color : Nat)
    (gtboxes : List BOX) (hbs : List BOX) (t : Tracker)
    (hhb : ∀ b ∈ hbs, boxInBounds W H b = true)
    (hgb : ∀ b ∈ gtboxes, boxInBounds W H b = true) :
    ((edgeRows img tm color gtboxes hbs t).1.map
        (fun row => (row.map Prod.fst).sum)).sum
      = ((allPix W H).filter (fun p =>
          (pairCovered hbs gtboxes p && qualifies img tm color [] p &&
            !t p.1 p.2) = true)).card := by
  induction hbs generalizing t with
  | nil =>
    simp [edgeRows, pairCovered]
  | cons hb hbs ih =>
    have hb1 : boxInBounds W H hb = true := hhb hb (List.mem_cons_self hb hbs)
    have hhb' : ∀ b ∈ hbs, boxInBounds W H b = true :=
      fun b h => hhb b (List.mem_cons_of_mem hb h)
    show ((classifyBoxes img tm color []
        (gtboxes.map (fun gb => interBox hb gb)) t).1.map Prod.fst).sum +
      ((edgeRows img tm color gtboxes hbs
        (classifyBoxes img tm color []
          (gtboxes.map (fun gb => interBox hb gb)) t).2).1.map
            (fun row => (row.map Prod.fst).sum)).sum = _
    rw [ih _ hhb']
    rw [classifyBoxes_count_sum W H img tm color []
      (gtboxes.map (fun gb => interBox hb gb)) t ?_]
    · have hrow : (allPix W H).filter (fun p =>
          (inSomeBox (gtboxes.map (fun gb => interBox hb gb)) p &&
            qualifies img tm color [] p && !t p.1 p.2) = true)
          = (allPix W H).filter (fun p =>
            ((gtboxes.any (fun gb => inBox (interBox hb gb) p)) &&
              (qualifies img tm color [] p && !t p.1 p.2)) = true) := by
        apply Finset.filter_congr
        intro p _
        rw [inSomeBox_map_interBox]
        by_cases h1 : gtboxes.any (fun gb => inBox (interBox hb gb) p) = true <;>
          by_cases h2 : qualifies img tm color [] p = true <;>
          by_cases h3 : t p.1 p.2 = true <;> simp [h1, h2, h3]
      have htr : (allPix W H).filter (fun p =>
          (pairCovered hbs gtboxes p && qualifies img tm color [] p &&
            !(classifyBoxes img tm color []
              (gtboxes.map (fun gb => interBox hb gb)) t).2 p.1 p.2) = true)
          = (allPix W H).filter (fun p =>
            (pairCovered hbs gtboxes p && qualifies img tm color [] p &&
              !(t p.1 p.2 ||
                ((gtboxes.any (fun gb => inBox (interBox hb gb) p)) &&
                  qualifies img tm color [] p))) = true) := by
        apply Finset.filter_congr
        intro p _
        rw [classifyBoxes_tracker, inSomeBox_map_interBox]
      rw [hrow, htr]
      have hsplit := filter_union_split W H
        (fun p => gtboxes.any (fun gb => inBox (interBox hb gb) p))
        (fun p => pairCovered hbs gtboxes p)
        (fun p => qualifies img tm color [] p)
        (fun p => t p.1 p.2)
      have hfin : (allPix W H).filter (fun p =>
          (pairCovered (hb :: hbs) gtboxes p && qualifies img tm color [] p &&
            !t p.1 p.2) = true) = (allPix W H).filter (fun p =>
          (((gtboxes.any (fun gb => inBox (interBox hb gb) p)) ||
              pairCovered hbs gtboxes p) && qualifies img tm color [] p &&
            !t p.1 p.2) = true) := by
        apply Finset.filter_congr
        intro p _
        have : pairCovered (hb :: hbs) gtboxes p =
            ((gtboxes.any (fun gb => inBox (interBox hb gb) p)) ||
              pairCovered hbs gtboxes p) := by
          simp [pairCovered]
        rw [this]
      rw [hfin, hsplit]
    · intro b hbmem
      rcases List.mem_map.1 hbmem with ⟨gb, hgbm, rfl⟩
      exact interBox_inBounds W H hb gb hb1 (hgb gb hgbm)

/-! ### List summation helpers -/

theorem sum_map_getD {α M : Type} [AddCommMonoid M] (l : List α) (f : α → M)
    (d : α) :
    ((List.range l.length).map (fun i => f (l.getD i d))).sum = (l.map f).sum := by
  induction l with
  | nil => rfl
  | cons a l ih =>
    rw [show (a :: l).length = l.length + 1 from rfl, List.range_succ_eq_map]
    simp only [List.map_cons, List.map_map, List.getD_cons_zero, List.sum_cons]
    have hmc : (List.range l.length).map
        ((fun i => f ((a :: l).getD i d)) ∘ Nat.succ)
        = (List.range l.length).map (fun i => f (l.getD i d)) := by
      apply List.map_congr_left
      intro i _
      simp [Function.comp, List.getD_cons_succ]
    rw [hmc, ih]

theorem sum_filterMap_if {β : Type} (l : List Nat) (c : Nat → Bool)
    (mk : Nat → β) (wt : β → Nat) :
    ((l.filterMap (fun j => if c j then some (mk j) else none)).map wt).sum
      = (l.map (fun j => if c j then wt (mk j) else 0)).sum := by
  induction l with
  | nil => rfl
  | cons j l ih =>
    by_cases h : c j = true <;> simp [List.filterMap_cons, h, ih]

theorem getD_map_range {α : Type} (n : Nat) (f : Nat → α) (d : α) (i : Nat)
    (hi : i < n) : ((List.range n).map f).getD i d = f i := by
  rw [List.getD_eq_getElem?_getD, List.getElem?_map, List.getElem?_range hi]
  rfl

/-! ### Graph projections -/

theorem mkGraph_Hypothesis_length (inp : GraphInput) :
    (mkGraph inp).Hypothesis.length = inp.hypboxes.length := by
  simp [mkGraph]

theorem mkGraph_GroundTruth_length (inp : GraphInput) :
    (mkGraph inp).GroundTruth.length = inp.gtboxes.length := by
  simp [mkGraph]

theorem mkGraph_Hypothesis_getD (inp : GraphInput) (i : Nat)
    (hi : i < inp.hypboxes.length) :
    (mkGraph inp).Hypothesis.getD i defaultVertex =
      { rect := inp.hypboxes.getD i defaultBox
        pix_foreground := ((vertexCounts inp.hypimg inp.typemode inp.color
          inp.hypboxes).getD i (0, 0)).1
        pix_foreground_duplicate := ((vertexCounts inp.hypimg inp.typemode
          inp.color inp.hypboxes).getD i (0, 0)).2
        area := (inp.hypboxes.getD i defaultBox).w *
          (inp.hypboxes.getD i defaultBox).h
        setindex := i
        edges := mkHypVertexEdges inp.gtboxes (inp.hypboxes.getD i defaultBox)
          ((edgeRows inp.hypimg inp.typemode inp.color inp.gtboxes
            inp.hypboxes freshTracker).1.getD i []) } := by
  show (((List.range inp.hypboxes.length).map _).getD i defaultVertex) = _
  rw [getD_map_range _ _ _ i hi]

theorem mkGraph_GroundTruth_getD (inp : GraphInput) (j : Nat)
    (hj : j < inp.gtboxes.length) :
    (mkGraph inp).GroundTruth.getD j defaultVertex =
      { rect := inp.gtboxes.getD j defaultBox
        pix_foreground := ((vertexCounts inp.gtimg inp.typemode inp.color
          inp.gtboxes).getD j (0, 0)).1
        pix_foreground_duplicate := ((vertexCounts inp.gtimg inp.typemode
          inp.color inp.gtboxes).getD j (0, 0)).2
        area := (inp.gtboxes.getD j defaultBox).w *
          (inp.gtboxes.getD j defaultBox).h
        setindex := j
        edges := mkGtVertexEdges inp.hypboxes (inp.gtboxes.getD j defaultBox)
          (edgeRows inp.hypimg inp.typemode inp.color inp.gtboxes
            inp.hypboxes freshTracker).1 j } := by
  show (((List.range inp.gtboxes.length).map _).getD j defaultVertex) = _
  rw [getD_map_range _ _ _ j hj]

/-! ### Whole-page pixel totals as set cardinalities -/

theorem qualifies_nil (img : Image) (tm : Bool) (color : Nat) (p : Nat × Nat) :
    qualifies img tm color [] p = pixMatches tm color (img.px p.1 p.2) := by
  simp [qualifies, inSomeBox]

theorem filter_congr_ptwise (s : Finset (Nat × Nat)) (f g : Nat × Nat → Bool)
    (h : ∀ p ∈ s, f p = g p) :
    s.filter (fun p => f p = true) = s.filter (fun p => g p = true) := by
  apply Finset.filter_congr
  intro p hp
  rw [h p hp]

theorem validInput_spec (inp : GraphInput) (h : validInput inp = true) :
    inp.hypimg.w = inp.gtimg.w ∧ inp.hypimg.h = inp.gtimg.h ∧
    (∀ b ∈ inp.hypboxes, boxInBounds inp.gtimg.w inp.gtimg.h b = true) ∧
    (∀ b ∈ inp.gtboxes, boxInBounds inp.gtimg.w inp.gtimg.h b = true) := by
  simp only [validInput, Bool.and_eq_true, beq_iff_eq, List.all_eq_true] at h
  exact ⟨h.1.1.1, h.1.1.2, h.1.2, h.2⟩

theorem consistentImages_spec (inp : GraphInput)
    (h : consistentImages inp = true) (p : Nat × Nat)
    (h1 : p.1 < inp.gtimg.w) (h2 : p.2 < inp.gtimg.h) :
    matchHyp inp p = matchGt inp p := by
  rw [consistentImages, List.all_eq_true] at h
  have hmem : p ∈ boxCoords (fullBox inp.gtimg) := by
    rw [mem_boxCoords, inBox_iff]
    simp [fullBox]
    omega
  simpa using h p hmem

theorem gtCoversAllFg_spec (inp : GraphInput) (h : gtCoversAllFg inp = true)
    (p : Nat × Nat) (h1 : p.1 < inp.gtimg.w) (h2 : p.2 < inp.gtimg.h)
    (hm : matchGt inp p = true) : inSomeBox inp.gtboxes p = true := by
  rw [gtCoversAllFg, List.all_eq_true] at h
  have hmem : p ∈ boxCoords (fullBox inp.gtimg) := by
    rw [mem_boxCoords, inBox_iff]
    simp [fullBox]
    omega
  have := h p hmem
  rw [hm] at this
  simpa using this

theorem fullBox_inBounds (img : Image) :
    boxInBounds img.w img.h (fullBox img) = true := by
  simp [boxInBounds, fullBox]

theorem inBox_fullBox (img : Image) (p : Nat × Nat) (h1 : p.1 < img.w)
    (h2 : p.2 < img.h) : inBox (fullBox img) p = true := by
  rw [inBox_iff]
  simp [fullBox]
  omega

theorem countColorPixels_full_count (img : Image) (tm : Bool) (color : Nat)
    (excl : List BOX) :
    (countColorPixels img (fullBox img) tm color excl freshTracker).count
      = ((allPix img.w img.h).filter (fun p =>
          (!(inSomeBox excl p) && pixMatches tm color (img.px p.1 p.2))
            = true)).card := by
  rw [countColorPixels_count,
    countP_boxCoords_eq_card img.w img.h (fullBox img) (fullBox_inBounds img)]
  apply congrArg
  apply Finset.filter_congr
  intro p hp
  rw [mem_allPix] at hp
  rw [inBox_fullBox img p hp.1 hp.2]
  simp [qualifies, freshTracker]

theorem classifyBoxes_sum_fresh (W H : Nat) (img : Image) (tm : Bool)
    (color : Nat) (excl : List BOX) (bs : List BOX)
    (hbs : ∀ b ∈ bs, boxInBounds W H b = true) :
    (((classifyBoxes img tm color excl bs freshTracker).1.map Prod.fst).sum)
      = ((allPix W H).filter (fun p =>
          (inSomeBox bs p && !(inSomeBox excl p) &&
            pixMatches tm color (img.px p.1 p.2)) = true)).card := by
  rw [classifyBoxes_count_sum W H img tm color excl bs freshTracker hbs]
  apply congrArg
  apply Finset.filter_congr
  intro p _
  rw [show qualifies img tm color excl p =
    (!(inSomeBox excl p) && pixMatches tm color (img.px p.1 p.2)) from rfl]
  by_cases h1 : inSomeBox bs p = true <;>
    by_cases h2 : inSomeBox excl p = true <;>
    by_cases h3 : pixMatches tm color (img.px p.1 p.2) = true <;>
    simp [h1, h2, h3, freshTracker]

theorem edgeRows_sum_fresh (W H : Nat) (img : Image) (tm : Bool) (color : Nat)
    (gtboxes hbs : List BOX)
    (hhb : ∀ b ∈ hbs, boxInBounds W H b = true)
    (hgb : ∀ b ∈ gtboxes, boxInBounds W H b = true) :
    ((edgeRows img tm color gtboxes hbs freshTracker).1.map
        (fun row => (row.map Prod.fst).sum)).sum
      = ((allPix W H).filter (fun p =>
          (inSomeBox hbs p && inSomeBox gtboxes p &&
            pixMatches tm color (img.px p.1 p.2)) = true)).card := by
  rw [edgeRows_count_sum W H img tm color gtboxes hbs freshTracker hhb hgb]
  apply congrArg
  apply Finset.filter_congr
  intro p _
  rw [pairCovered_eq, qualifies_nil]
  by_cases h1 : inSomeBox hbs p = true <;>
    by_cases h2 : inSomeBox gtboxes p = true <;>
    by_cases h3 : pixMatches tm color (img.px p.1 p.2) = true <;>
    simp [h1, h2, h3, freshTracker]

theorem getD_map {α β : Type} (l : List α) (f : α → β) (dα : α) (dβ : β)
    (j : Nat) (hj : j < l.length) :
    (l.map f).getD j dβ = f (l.getD j dα) := by
  rw [List.getD_eq_getElem?_getD, List.getElem?_map,
    List.getElem?_eq_getElem hj,
    List.getD_eq_getElem?_getD, List.getElem?_eq_getElem hj]
  rfl

theorem edgeRows_getD_exists (img : Image) (tm : Bool) (color : Nat)
    (gtboxes : List BOX) (hbs : List BOX) (t : Tracker) (i : Nat)
    (hi : i < hbs.length) :
    ∃ t', (edgeRows img tm color gtboxes hbs t).1.getD i []
      = (classifyBoxes img tm color []
          (gtboxes.map (fun gb => interBox (hbs.getD i defaultBox) gb)) t').1 := by
  induction hbs generalizing i t with
  | nil => exact absurd hi (by simp)
  | cons hb hbs ih =>
    cases i with
    | zero => exact ⟨t, rfl⟩
    | succ i =>
      have hi' : i < hbs.length := by simpa using hi
      exact ih _ i hi'

theorem sum_hyp_foreground (inp : GraphInput)
    (hval : validInput inp = true) :
    (((mkGraph inp).Hypothesis.map (fun v => v.pix_foreground)).sum)
      = ((allPix inp.gtimg.w inp.gtimg.h).filter (fun p =>
          (inSomeBox inp.hypboxes p && matchHyp inp p) = true)).card := by
  obtain ⟨-, -, hhb, -⟩ := validInput_spec inp hval
  have hmap : (mkGraph inp).Hypothesis.map (fun v => v.pix_foreground)
      = (List.range inp.hypboxes.length).map (fun i =>
          ((vertexCounts inp.hypimg inp.typemode inp.color
            inp.hypboxes).getD i (0, 0)).1) := by
    simp [mkGraph, List.map_map]
  rw [hmap]
  rw [show inp.hypboxes.length =
    (vertexCounts inp.hypimg inp.typemode inp.color inp.hypboxes).length from
    (classifyBoxes_length inp.hypimg inp.typemode inp.color [] inp.hypboxes
      freshTracker).symm]
  rw [sum_map_getD (vertexCounts inp.hypimg inp.typemode inp.color inp.hypboxes)
    Prod.fst (0, 0)]
  rw [show vertexCounts inp.hypimg inp.typemode inp.color inp.hypboxes =
    (classifyBoxes inp.hypimg inp.typemode inp.color [] inp.hypboxes
      freshTracker).1 from rfl]
  rw [classifyBoxes_sum_fresh inp.gtimg.w inp.gtimg.h inp.hypimg inp.typemode
    inp.color [] inp.hypboxes hhb]
  apply congrArg
  apply Finset.filter_congr
  intro p _
  rw [show matchHyp inp p =
    pixMatches inp.typemode inp.color (inp.hypimg.px p.1 p.2) from rfl]
  by_cases h1 : inSomeBox inp.hypboxes p = true <;>
    by_cases h3 : pixMatches inp.typemode inp.color (inp.hypimg.px p.1 p.2) = true <;>
    simp [h1, h3, inSomeBox]

theorem sum_gt_foreground (inp : GraphInput)
    (hval : validInput inp = true) :
    (((mkGraph inp).GroundTruth.map (fun v => v.pix_foreground)).sum)
      = ((allPix inp.gtimg.w inp.gtimg.h).filter (fun p =>
          (inSomeBox inp.gtboxes p && matchGt inp p) = true)).card := by
  obtain ⟨-, -, -, hgb⟩ := validInput_spec inp hval
  have hmap : (mkGraph inp).GroundTruth.map (fun v => v.pix_foreground)
      = (List.range inp.gtboxes.length).map (fun i =>
          ((vertexCounts inp.gtimg inp.typemode inp.color
            inp.gtboxes).getD i (0, 0)).1) := by
    simp [mkGraph, List.map_map]
  rw [hmap]
  rw [show inp.gtboxes.length =
    (vertexCounts inp.gtimg inp.typemode inp.color inp.gtboxes).length from
    (classifyBoxes_length inp.gtimg inp.typemode inp.color [] inp.gtboxes
      freshTracker).symm]
  rw [sum_map_getD (vertexCounts inp.gtimg inp.typemode inp.color inp.gtboxes)
    Prod.fst (0, 0)]
  rw [show vertexCounts inp.gtimg inp.typemode inp.color inp.gtboxes =
    (classifyBoxes inp.gtimg inp.typemode inp.color [] inp.gtboxes
      freshTracker).1 from rfl]
  rw [classifyBoxes_sum_fresh inp.gtimg.w inp.gtimg.h inp.gtimg inp.typemode
    inp.color [] inp.gtboxes hgb]
  apply congrArg
  apply Finset.filter_congr
  intro p _
  rw [show matchGt inp p =
    pixMatches inp.typemode inp.color (inp.gtimg.px p.1 p.2) from rfl]
  by_cases h1 : inSomeBox inp.gtboxes p = true <;>
    by_cases h3 : pixMatches inp.typemode inp.color (inp.gtimg.px p.1 p.2) = true <;>
    simp [h1, h3, inSomeBox]

theorem sum_FP_card (inp : GraphInput) (hval : validInput inp = true) :
    (((hypFPcounts inp).map Prod.fst).sum)
      = ((allPix inp.gtimg.w inp.gtimg.h).filter (fun p =>
          (inSomeBox inp.hypboxes p && !(inSomeBox inp.gtboxes p) &&
            matchHyp inp p) = true)).card := by
  obtain ⟨-, -, hhb, -⟩ := validInput_spec inp hval
  rw [show hypFPcounts inp =
    (classifyBoxes inp.hypimg inp.typemode inp.color inp.gtboxes inp.hypboxes
      freshTracker).1 from rfl]
  rw [classifyBoxes_sum_fresh inp.gtimg.w inp.gtimg.h inp.hypimg inp.typemode
    inp.color inp.gtboxes inp.hypboxes hhb]
  rfl

theorem sum_FN_card (inp : GraphInput) (hval : validInput inp = true) :
    (((gtFNcounts inp).map Prod.fst).sum)
      = ((allPix inp.gtimg.w inp.gtimg.h).filter (fun p =>
          (inSomeBox inp.gtboxes p && !(inSomeBox inp.hypboxes p) &&
            matchGt inp p) = true)).card := by
  obtain ⟨-, -, -, hgb⟩ := validInput_spec inp hval
  rw [show gtFNcounts inp =
    (classifyBoxes inp.gtimg inp.typemode inp.color inp.hypboxes inp.gtboxes
      freshTracker).1 from rfl]
  rw [classifyBoxes_sum_fresh inp.gtimg.w inp.gtimg.h inp.gtimg inp.typemode
    inp.color inp.hypboxes inp.gtboxes hgb]
  rfl

theorem vertexTP_eq_rowSum (inp : GraphInput) (i : Nat)
    (hi : i < inp.hypboxes.length) :
    vertexTP ((mkGraph inp).Hypothesis.getD i defaultVertex)
      = ((((edgeRows inp.hypimg inp.typemode inp.color inp.gtboxes
          inp.hypboxes freshTracker).1.getD i []).map Prod.fst).sum) := by
  rw [mkGraph_Hypothesis_getD inp i hi]
  obtain ⟨t', ht'⟩ := edgeRows_getD_exists inp.hypimg inp.typemode inp.color
    inp.gtboxes inp.hypboxes freshTracker i hi
  rw [ht']
  show ((mkHypVertexEdges inp.gtboxes (inp.hypboxes.getD i defaultBox)
      (classifyBoxes inp.hypimg inp.typemode inp.color []
        (inp.gtboxes.map (fun gb =>
          interBox (inp.hypboxes.getD i defaultBox) gb)) t').1).map
        (fun e => e.pixfg_intersecting)).sum = _
  have h1 := sum_filterMap_if (List.range inp.gtboxes.length)
    (fun j => boxesIntersect (inp.hypboxes.getD i defaultBox)
      (inp.gtboxes.getD j defaultBox))
    (fun j => (⟨j,
      (((classifyBoxes inp.hypimg inp.typemode inp.color []
        (inp.gtboxes.map (fun gb =>
          interBox (inp.hypboxes.getD i defaultBox) gb)) t').1.getD j (0, 0)).1),
      (interBox (inp.hypboxes.getD i defaultBox)
        (inp.gtboxes.getD j defaultBox)).w *
      (interBox (inp.hypboxes.getD i defaultBox)
        (inp.gtboxes.getD j defaultBox)).h⟩ : Edge))
    (fun e => e.pixfg_intersecting)
  refine h1.trans ?_
  have hlen : (classifyBoxes inp.hypimg inp.typemode inp.color []
      (inp.gtboxes.map (fun gb =>
        interBox (inp.hypboxes.getD i defaultBox) gb)) t').1.length
      = inp.gtboxes.length := by
    rw [classifyBoxes_length]
    simp
  have hcg : (List.range inp.gtboxes.length).map (fun j =>
      if boxesIntersect (inp.hypboxes.getD i defaultBox)
        (inp.gtboxes.getD j defaultBox) then
        (((classifyBoxes inp.hypimg inp.typemode inp.color []
          (inp.gtboxes.map (fun gb =>
            interBox (inp.hypboxes.getD i defaultBox) gb)) t').1.getD
              j (0, 0)).1)
      else 0)
      = (List.range inp.gtboxes.length).map (fun j =>
        (((classifyBoxes inp.hypimg inp.typemode inp.color []
          (inp.gtboxes.map (fun gb =>
            interBox (inp.hypboxes.getD i defaultBox) gb)) t').1.getD
              j (0, 0)).1)) := by
    apply List.map_congr_left
    intro j hj
    have hjlt : j < inp.gtboxes.length := List.mem_range.1 hj
    by_cases hc : boxesIntersect (inp.hypboxes.getD i defaultBox)
        (inp.gtboxes.getD j defaultBox) = true
    · rw [if_pos hc]
    · have hc' : boxesIntersect (inp.hypboxes.getD i defaultBox)
          (inp.gtboxes.getD j defaultBox) = false := by simpa using hc
      have hdeg : boxCoords ((inp.gtboxes.map (fun gb =>
          interBox (inp.hypboxes.getD i defaultBox) gb)).getD j defaultBox)
          = [] := by
        rw [getD_map inp.gtboxes _ defaultBox defaultBox j hjlt]
        exact interBox_degenerate _ _ hc'
      have := classifyBoxes_getD_degenerate inp.hypimg inp.typemode inp.color
        [] (inp.gtboxes.map (fun gb =>
          interBox (inp.hypboxes.getD i defaultBox) gb)) t' j
        (by simpa using hjlt) hdeg
      rw [hc', this]
      simp
  rw [hcg]
  rw [show inp.gtboxes.length = (classifyBoxes inp.hypimg inp.typemode
    inp.color [] (inp.gtboxes.map (fun gb =>
      interBox (inp.hypboxes.getD i defaultBox) gb)) t').1.length from
    hlen.symm]
  exact sum_map_getD _ Prod.fst (0, 0)

theorem sum_TP (inp : GraphInput) :
    ((hypRegionDescs inp).map (fun d => d.true_positive_pix)).sum
      = ((edgeRows inp.hypimg inp.typemode inp.color inp.gtboxes inp.hypboxes
          freshTracker).1.map (fun row => (row.map Prod.fst).sum)).sum := by
  have hmap : (hypRegionDescs inp).map (fun d => d.true_positive_pix)
      = (List.range inp.hypboxes.length).map (fun i =>
          vertexTP ((mkGraph inp).Hypothesis.getD i defaultVertex)) := by
    rw [hypRegionDescs, List.map_map]
    rfl
  rw [hmap]
  have hcg : (List.range inp.hypboxes.length).map (fun i =>
      vertexTP ((mkGraph inp).Hypothesis.getD i defaultVertex))
      = (List.range inp.hypboxes.length).map (fun i =>
        ((((edgeRows inp.hypimg inp.typemode inp.color inp.gtboxes
          inp.hypboxes freshTracker).1.getD i []).map Prod.fst).sum)) := by
    apply List.map_congr_left
    intro i hi
    exact vertexTP_eq_rowSum inp i (List.mem_range.1 hi)
  rw [hcg]
  rw [show inp.hypboxes.length = (edgeRows inp.hypimg inp.typemode inp.color
    inp.gtboxes inp.hypboxes freshTracker).1.length from
    (edgeRows_length inp.hypimg inp.typemode inp.color inp.gtboxes
      inp.hypboxes freshTracker).symm]
  exact sum_map_getD (edgeRows inp.hypimg inp.typemode inp.color inp.gtboxes
    inp.hypboxes freshTracker).1 (fun row => (row.map Prod.fst).sum) []

/-! ### Cardinality splitting identities -/

theorem card_filter_pair_split (s : Finset (Nat × Nat))
    (A B m : Nat × Nat → Bool) :
    (s.filter (fun p => (A p && B p && m p) = true)).card
      + (s.filter (fun p => (B p && !A p && m p) = true)).card
      = (s.filter (fun p => (B p && m p) = true)).card := by
  rw [← Finset.card_union_of_disjoint ?_]
  · congr 1
    ext p
    simp only [Finset.mem_union, Finset.mem_filter]
    by_cases h1 : A p = true <;> by_cases h2 : B p = true <;>
      by_cases h3 : m p = true <;> simp [h1, h2, h3]
  · rw [Finset.disjoint_left]
    intro p hp1 hp2
    simp only [Finset.mem_filter] at hp1 hp2
    by_cases h1 : A p = true <;> simp [h1] at hp1 hp2

theorem card_filter_pair_split' (s : Finset (Nat × Nat))
    (A B m : Nat × Nat → Bool) :
    (s.filter (fun p => (A p && B p && m p) = true)).card
      + (s.filter (fun p => (A p && !B p && m p) = true)).card
      = (s.filter (fun p => (A p && m p) = true)).card := by
  rw [← Finset.card_union_of_disjoint ?_]
  · congr 1
    ext p
    simp only [Finset.mem_union, Finset.mem_filter]
    by_cases h1 : A p = true <;> by_cases h2 : B p = true <;>
      by_cases h3 : m p = true <;> simp [h1, h2, h3]
  · rw [Finset.disjoint_left]
    intro p hp1 hp2
    simp only [Finset.mem_filter] at hp1 hp2
    by_cases h2 : B p = true <;> simp [h2] at hp1 hp2

theorem card_filter_neg_split (s : Finset (Nat × Nat))
    (A B m : Nat × Nat → Bool) :
    (s.filter (fun p => (!(A p || B p) && m p) = true)).card
      + (s.filter (fun p => (B p && !A p && m p) = true)).card
      = (s.filter (fun p => (!A p && m p) = true)).card := by
  rw [← Finset.card_union_of_disjoint ?_]
  · congr 1
    ext p
    simp only [Finset.mem_union, Finset.mem_filter]
    by_cases h1 : A p = true <;> by_cases h2 : B p = true <;>
      by_cases h3 : m p = true <;> simp [h1, h2, h3]
  · rw [Finset.disjoint_left]
    intro p hp1 hp2
    simp only [Finset.mem_filter] at hp1 hp2
    by_cases h2 : B p = true <;> simp [h2] at hp1 hp2

theorem card_filter_tn_fp (s : Finset (Nat × Nat))
    (A B m : Nat × Nat → Bool) :
    (s.filter (fun p => (!(A p || B p) && m p) = true)).card
      + (s.filter (fun p => (A p && !B p && m p) = true)).card
      = (s.filter (fun p => (!B p && m p) = true)).card := by
  rw [← Finset.card_union_of_disjoint ?_]
  · congr 1
    ext p
    simp only [Finset.mem_union, Finset.mem_filter]
    by_cases h1 : A p = true <;> by_cases h2 : B p = true <;>
      by_cases h3 : m p = true <;> simp [h1, h2, h3]
  · rw [Finset.disjoint_left]
    intro p hp1 hp2
    simp only [Finset.mem_filter] at hp1 hp2
    by_cases h1 : A p = true <;> simp [h1] at hp1 hp2

theorem card_filter_total_split (s : Finset (Nat × Nat))
    (A m : Nat × Nat → Bool) :
    (s.filter (fun p => (A p && m p) = true)).card
      + (s.filter (fun p => (!A p && m p) = true)).card
      = (s.filter (fun p => m p = true)).card := by
  rw [← Finset.card_union_of_disjoint ?_]
  · congr 1
    ext p
    simp only [Finset.mem_union, Finset.mem_filter]
    by_cases h1 : A p = true <;> by_cases h3 : m p = true <;> simp [h1, h3]
  · rw [Finset.disjoint_left]
    intro p hp1 hp2
    simp only [Finset.mem_filter] at hp1 hp2
    by_cases h1 : A p = true <;> simp [h1] at hp1 hp2

/-! ### The remaining whole-page counts -/

theorem totalFgPix_card (inp : GraphInput) :
    totalFgPix inp = ((allPix inp.gtimg.w inp.gtimg.h).filter (fun p =>
      matchGt inp p = true)).card := by
  rw [show totalFgPix inp = (countColorPixels inp.gtimg (fullBox inp.gtimg)
    inp.typemode inp.color [] freshTracker).count from rfl]
  rw [countColorPixels_full_count]
  apply congrArg
  apply Finset.filter_congr
  intro p _
  simp [inSomeBox]
  rfl

theorem trueNegPix_card (inp : GraphInput) :
    trueNegPix inp = ((allPix inp.gtimg.w inp.gtimg.h).filter (fun p =>
      (!(inSomeBox inp.hypboxes p || inSomeBox inp.gtboxes p) &&
        matchGt inp p) = true)).card := by
  rw [show trueNegPix inp = (countColorPixels inp.gtimg (fullBox inp.gtimg)
    inp.typemode inp.color (inp.hypboxes ++ inp.gtboxes) freshTracker).count
    from rfl]
  rw [countColorPixels_full_count]
  apply congrArg
  apply Finset.filter_congr
  intro p _
  rw [inSomeBox_append]
  rfl

theorem gtNegPix_card (inp : GraphInput) :
    gtNegPix inp = ((allPix inp.gtimg.w inp.gtimg.h).filter (fun p =>
      (!(inSomeBox inp.gtboxes p) && matchGt inp p) = true)).card := by
  rw [show gtNegPix inp = (countColorPixels inp.gtimg (fullBox inp.gtimg)
    inp.typemode inp.color inp.gtboxes freshTracker).count from rfl]
  rw [countColorPixels_full_count]
  rfl

/-! ### Structural sums over the per-region records -/

theorem sum_descs_FP (inp : GraphInput) :
    ((hypRegionDescs inp).map (fun d => d.false_positive_pix)).sum
      = ((hypFPcounts inp).map Prod.fst).sum := by
  have hmap : (hypRegionDescs inp).map (fun d => d.false_positive_pix)
      = (List.range inp.hypboxes.length).map (fun i =>
          ((hypFPcounts inp).getD i (0, 0)).1) := by
    rw [hypRegionDescs, List.map_map]
    rfl
  rw [hmap]
  rw [show inp.hypboxes.length = (hypFPcounts inp).length from
    (classifyBoxes_length inp.hypimg inp.typemode inp.color inp.gtboxes
      inp.hypboxes freshTracker).symm]
  exact sum_map_getD (hypFPcounts inp) Prod.fst (0, 0)

theorem sum_ogts_FN (inp : GraphInput) :
    ((gtOverlapRegions inp).map (fun d => d.falsenegativepix)).sum
      = ((gtFNcounts inp).map Prod.fst).sum := by
  have hmap : (gtOverlapRegions inp).map (fun d => d.falsenegativepix)
      = (List.range inp.gtboxes.length).map (fun j =>
          ((gtFNcounts inp).getD j (0, 0)).1) := by
    rw [gtOverlapRegions, List.map_map]
    rfl
  rw [hmap]
  rw [show inp.gtboxes.length = (gtFNcounts inp).length from
    (classifyBoxes_length inp.gtimg inp.typemode inp.color inp.hypboxes
      inp.gtboxes freshTracker).symm]
  exact sum_map_getD (gtFNcounts inp) Prod.fst (0, 0)

theorem sum_ogts_FN_dup (inp : GraphInput) :
    ((gtOverlapRegions inp).map (fun d => d.falsenegativepix_duplicates)).sum
      = ((gtFNcounts inp).map Prod.snd).sum := by
  have hmap : (gtOverlapRegions inp).map
      (fun d => d.falsenegativepix_duplicates)
      = (List.range inp.gtboxes.length).map (fun j =>
          ((gtFNcounts inp).getD j (0, 0)).2) := by
    rw [gtOverlapRegions, List.map_map]
    rfl
  rw [hmap]
  rw [show inp.gtboxes.length = (gtFNcounts inp).length from
    (classifyBoxes_length inp.gtimg inp.typemode inp.color inp.hypboxes
      inp.gtboxes freshTracker).symm]
  exact sum_map_getD (gtFNcounts inp) Prod.snd (0, 0)

theorem sum_gt_foreground_dup (inp : GraphInput) :
    ((mkGraph inp).GroundTruth.map (fun v => v.pix_foreground_duplicate)).sum
      = ((vertexCounts inp.gtimg inp.typemode inp.color inp.gtboxes).map
          Prod.snd).sum := by
  have hmap : (mkGraph inp).GroundTruth.map
      (fun v => v.pix_foreground_duplicate)
      = (List.range inp.gtboxes.length).map (fun j =>
          ((vertexCounts inp.gtimg inp.typemode inp.color
            inp.gtboxes).getD j (0, 0)).2) := by
    simp [mkGraph, List.map_map]
  rw [hmap]
  rw [show inp.gtboxes.length = (vertexCounts inp.gtimg inp.typemode inp.color
    inp.gtboxes).length from (classifyBoxes_length inp.gtimg inp.typemode
      inp.color [] inp.gtboxes freshTracker).symm]
  exact sum_map_getD
    (vertexCounts inp.gtimg inp.typemode inp.color inp.gtboxes) Prod.snd (0, 0)

/-! ### Duplicate counts vanish on non-overlapping rectangles -/

theorem gt_vertex_dups_zero (inp : GraphInput)
    (hdisj : inp.gtboxes.Pairwise (fun a b => boxesIntersect a b = false)) :
    ((vertexCounts inp.gtimg inp.typemode inp.color inp.gtboxes).map
      Prod.snd).sum = 0 := by
  apply List.sum_eq_zero
  intro x hx
  rcases List.mem_map.1 hx with ⟨q, hq, rfl⟩
  exact classifyBoxes_dup_zero inp.gtimg inp.typemode inp.color []
    inp.gtboxes freshTracker hdisj
    (fun p hp => absurd hp (by simp [freshTracker])) q hq

theorem gt_FN_dups_zero (inp : GraphInput)
    (hdisj : inp.gtboxes.Pairwise (fun a b => boxesIntersect a b = false)) :
    ((gtFNcounts inp).map Prod.snd).sum = 0 := by
  apply List.sum_eq_zero
  intro x hx
  rcases List.mem_map.1 hx with ⟨q, hq, rfl⟩
  exact classifyBoxes_dup_zero inp.gtimg inp.typemode inp.color inp.hypboxes
    inp.gtboxes freshTracker hdisj
    (fun p hp => absurd hp (by simp [freshTracker])) q hq

/-! ### Aggregation pass characterizations -/

theorem hypSegFold_spec (gtVerts : List Vertex) (l : List Vertex)
    (m : SegCounters) :
    ((l.foldl (hypSegStep gtVerts) m).correctsegmentations
        = m.correctsegmentations + l.countP (fun v => isCorrectSeg gtVerts v))
    ∧ ((l.foldl (hypSegStep gtVerts) m).falsepositives
        = m.falsepositives + l.countP (fun v => decide (v.edges.length = 0)))
    ∧ ((l.foldl (hypSegStep gtVerts) m).undersegmentedcomponents
        = m.undersegmentedcomponents
          + l.countP (fun v => decide (2 ≤ v.edges.length)))
    ∧ ((l.foldl (hypSegStep gtVerts) m).undersegmentations
        = m.undersegmentations
          + ((l.filter (fun v => decide (2 ≤ v.edges.length))).map
              (fun v => v.edges.length)).sum) := by
  induction l generalizing m with
  | nil => simp
  | cons v l ih =>
    have ih' := ih (hypSegStep gtVerts m v)
    refine ⟨?_, ?_, ?_, ?_⟩
    · rw [List.foldl_cons, ih'.1, List.countP_cons]
      by_cases hcs : isCorrectSeg gtVerts v = true <;>
        simp [hypSegStep, hcs] <;> omega
    · rw [List.foldl_cons, ih'.2.1, List.countP_cons]
      by_cases h0 : v.edges.length = 0 <;> simp [hypSegStep, h0] <;> omega
    · rw [List.foldl_cons, ih'.2.2.1, List.countP_cons]
      by_cases h2 : 2 ≤ v.edges.length <;> simp [hypSegStep, h2] <;> omega
    · rw [List.foldl_cons, ih'.2.2.2, List.filter_cons]
      by_cases h2 : 2 ≤ v.edges.length <;> simp [hypSegStep, h2] <;> omega

theorem gtSegFold_spec (l : List Vertex) (m : GtCounters) :
    ((l.foldl gtSegStep m).falsenegatives
        = m.falsenegatives + l.countP (fun v => decide (v.edges.length = 0)))
    ∧ ((l.foldl gtSegStep m).oversegmentedcomponents
        = m.oversegmentedcomponents
          + l.countP (fun v => decide (2 ≤ v.edges.length)))
    ∧ ((l.foldl gtSegStep m).oversegmentations
        = m.oversegmentations
          + ((l.filter (fun v => decide (2 ≤ v.edges.length))).map
              (fun v => v.edges.length)).sum) := by
  induction l generalizing m with
  | nil => simp
  | cons v l ih =>
    have ih' := ih (gtSegStep m v)
    refine ⟨?_, ?_, ?_⟩
    · rw [List.foldl_cons, ih'.1, List.countP_cons]
      by_cases h0 : v.edges.length = 0 <;> simp [gtSegStep, h0] <;> omega
    · rw [List.foldl_cons, ih'.2.1, List.countP_cons]
      by_cases h2 : 2 ≤ v.edges.length <;> simp [gtSegStep, h2] <;> omega
    · rw [List.foldl_cons, ih'.2.2, List.filter_cons]
      by_cases h2 : 2 ≤ v.edges.length <;> simp [gtSegStep, h2] <;> omega

/-! ### Edge list characterization helpers -/

theorem nodup_otherIndex_filterMap (f : Nat → Option Edge) (l : List Nat)
    (hl : l.Nodup) (hf : ∀ j e, f j = some e → e.otherIndex = j) :
    ((l.filterMap f).map (fun e => e.otherIndex)).Nodup := by
  rw [List.map_filterMap]
  apply List.Nodup.filterMap ?_ hl
  intro a a' b hb hb'
  cases hfa : f a with
  | none => rw [hfa] at hb; simp at hb
  | some e =>
    cases hfa' : f a' with
    | none => rw [hfa'] at hb'; simp at hb'
    | some e' =>
      rw [hfa] at hb
      rw [hfa'] at hb'
      simp at hb hb'
      rw [hf a e hfa] at hb
      rw [hf a' e' hfa'] at hb'
      exact hb.trans hb'.symm

/-! ### Small arithmetic helpers -/

theorem divOr0_zero_den (a : Rat) : divOr0 a 0 = 0 := by
  simp [divOr0]

theorem list_sum_div (l : List Rat) (c : Rat) :
    (l.map (fun x => x / c)).sum = l.sum / c := by
  induction l with
  | nil => simp
  | cons a l ih => simp [ih, add_div]

theorem filter_match_consistent (inp : GraphInput)
    (hcons : consistentImages inp = true) (X : Nat × Nat → Bool) :
    (allPix inp.gtimg.w inp.gtimg.h).filter
        (fun p => (X p && matchHyp inp p) = true)
      = (allPix inp.gtimg.w inp.gtimg.h).filter
        (fun p => (X p && matchGt inp p) = true) := by
  apply Finset.filter_congr
  intro p hp
  rw [mem_allPix] at hp
  rw [consistentImages_spec inp hcons p hp.1 hp.2]

/-! ### The claims -/

/-- C7: for every GraphInput, validation of input images and rectangles
(equal image dimensions, every rectangle inside image bounds) happens once
at graph-construction time; if validation fails, construction fails
atomically, exposing no partially built graph, and the mismatch is
surfaced to the caller as an error rather than being silently clamped. -/
theorem construction_validates_atomically (inp : GraphInput) :
    (validInput inp = true →
      buildBipartiteGraph inp = Except.ok (mkGraph inp))
    ∧ (validInput inp = false →
      buildBipartiteGraph inp = Except.error "input mismatch")
    ∧ (∀ g, buildBipartiteGraph inp = Except.ok g →
        validInput inp = true ∧ g = mkGraph inp) := by
  refine ⟨fun h => by simp [buildBipartiteGraph, h],
    fun h => by simp [buildBipartiteGraph, h], fun g hg => ?_⟩
  by_cases h : validInput inp = true
  · simp only [buildBipartiteGraph, h, if_true] at hg
    have : g = mkGraph inp := by
      cases hg
      rfl
    exact ⟨h, this⟩
  · have h' : validInput inp = false := by simpa using h
    simp [buildBipartiteGraph, h'] at hg

/-- Witness for C7 at concrete inputs: the valid page builds its graph, the
width-mismatched page is rejected with the error and never yields a
graph. -/
theorem construction_validates_atomically_witness :
    buildBipartiteGraph pageInput = Except.ok (mkGraph pageInput)
    ∧ buildBipartiteGraph badInput = Except.error "input mismatch" :=
  ⟨(construction_validates_atomically pageInput).1 (by decide),
   (construction_validates_atomically badInput).2.1 (by decide)⟩

/-- C8: rebuilding the bipartite graph twice from the same inputs produces
identical GroundTruthMetrics and HypothesisMetrics records; the rebuilt
state is independent of any previous state of the instance, so the whole
evaluation is a deterministic function of its inputs. -/
theorem rebuild_idempotent (inp : GraphInput) (s t : GraphState) :
    rebuild (rebuild s inp) inp = rebuild s inp
    ∧ rebuild s inp = rebuild t inp
    ∧ (rebuild s inp).hypmetrics = getHypothesisMetrics inp
    ∧ (rebuild s inp).gtmetrics = getGroundTruthMetrics inp :=
  ⟨rfl, rfl, rfl, rfl⟩

/-- C4: the aggregation pass classifies vertices by edge count: a
hypothesis vertex with 0 edges increments falsepositives by exactly 1 and
one with k ≥ 2 edges increments undersegmentedcomponents by 1 and
undersegmentations by k; symmetrically on the groundtruth side for
falsenegatives, oversegmentedcomponents and oversegmentations; the
resulting whole-page counters equal the corresponding counts over all
vertices. -/
theorem vertex_classification_by_edge_count (inp : GraphInput) :
    (∀ (gtVerts : List Vertex) (m : SegCounters) (v : Vertex),
      (v.edges.length = 0 →
        (hypSegStep gtVerts m v).falsepositives = m.falsepositives + 1)
      ∧ (v.edges.length ≠ 0 →
        (hypSegStep gtVerts m v).falsepositives = m.falsepositives)
      ∧ (2 ≤ v.edges.length →
        (hypSegStep gtVerts m v).undersegmentedcomponents
            = m.undersegmentedcomponents + 1
          ∧ (hypSegStep gtVerts m v).undersegmentations
            = m.undersegmentations + v.edges.length)
      ∧ (v.edges.length < 2 →
        (hypSegStep gtVerts m v).undersegmentedcomponents
            = m.undersegmentedcomponents
          ∧ (hypSegStep gtVerts m v).undersegmentations
            = m.undersegmentations))
    ∧ (∀ (m : GtCounters) (v : Vertex),
      (v.edges.length = 0 →
        (gtSegStep m v).falsenegatives = m.falsenegatives + 1)
      ∧ (v.edges.length ≠ 0 →
        (gtSegStep m v).falsenegatives = m.falsenegatives)
      ∧ (2 ≤ v.edges.length →
        (gtSegStep m v).oversegmentedcomponents = m.oversegmentedcomponents + 1
          ∧ (gtSegStep m v).oversegmentations
            = m.oversegmentations + v.edges.length)
      ∧ (v.edges.length < 2 →
        (gtSegStep m v).oversegmentedcomponents = m.oversegmentedcomponents
          ∧ (gtSegStep m v).oversegmentations = m.oversegmentations))
    ∧ (getHypothesisMetrics inp).falsepositives
        = ((mkGraph inp).Hypothesis.filter
            (fun v => decide (v.edges.length = 0))).length
    ∧ (getHypothesisMetrics inp).undersegmentedcomponents
        = ((mkGraph inp).Hypothesis.filter
            (fun v => decide (2 ≤ v.edges.length))).length
    ∧ (getHypothesisMetrics inp).undersegmentations
        = (((mkGraph inp).Hypothesis.filter
            (fun v => decide (2 ≤ v.edges.length))).map
              (fun v => v.edges.length)).sum
    ∧ (getHypothesisMetrics inp).falsenegatives
        = ((mkGraph inp).GroundTruth.filter
            (fun v => decide (v.edges.length = 0))).length
    ∧ (getHypothesisMetrics inp).oversegmentedcomponents
        = ((mkGraph inp).GroundTruth.filter
            (fun v => decide (2 ≤ v.edges.length))).length
    ∧ (getHypothesisMetrics inp).oversegmentations
        = (((mkGraph inp).GroundTruth.filter
            (fun v => decide (2 ≤ v.edges.length))).map
              (fun v => v.edges.length)).sum := by
  refine ⟨?_, ?_, ?_, ?_, ?_, ?_, ?_, ?_⟩
  · intro gtVerts m v
    refine ⟨fun h => by simp [hypSegStep, h], fun h => by simp [hypSegStep, h],
      fun h => ⟨by simp [hypSegStep, h], by simp [hypSegStep, h]⟩,
      fun h => ⟨by simp [hypSegStep]; omega, by simp [hypSegStep]; omega⟩⟩
  · intro m v
    refine ⟨fun h => by simp [gtSegStep, h], fun h => by simp [gtSegStep, h],
      fun h => ⟨by simp [gtSegStep, h], by simp [gtSegStep, h]⟩,
      fun h => ⟨by simp [gtSegStep]; omega, by simp [gtSegStep]; omega⟩⟩
  · have h := (hypSegFold_spec (mkGraph inp).GroundTruth
      (mkGraph inp).Hypothesis ⟨0, 0, 0, 0⟩).2.1
    rw [show (getHypothesisMetrics inp).falsepositives
      = ((mkGraph inp).Hypothesis.foldl
        (hypSegStep (mkGraph inp).GroundTruth) ⟨0, 0, 0, 0⟩).falsepositives
      from rfl, h, List.countP_eq_length_filter]
    simp
  · have h := (hypSegFold_spec (mkGraph inp).GroundTruth
      (mkGraph inp).Hypothesis ⟨0, 0, 0, 0⟩).2.2.1
    rw [show (getHypothesisMetrics inp).undersegmentedcomponents
      = ((mkGraph inp).Hypothesis.foldl
        (hypSegStep (mkGraph inp).GroundTruth)
          ⟨0, 0, 0, 0⟩).undersegmentedcomponents
      from rfl, h, List.countP_eq_length_filter]
    simp
  · have h := (hypSegFold_spec (mkGraph inp).GroundTruth
      (mkGraph inp).Hypothesis ⟨0, 0, 0, 0⟩).2.2.2
    rw [show (getHypothesisMetrics inp).undersegmentations
      = ((mkGraph inp).Hypothesis.foldl
        (hypSegStep (mkGraph inp).GroundTruth)
          ⟨0, 0, 0, 0⟩).undersegmentations
      from rfl, h]
    simp
  · have h := (gtSegFold_spec (mkGraph inp).GroundTruth ⟨0, 0, 0⟩).1
    rw [show (getHypothesisMetrics inp).falsenegatives
      = ((mkGraph inp).GroundTruth.foldl gtSegStep ⟨0, 0, 0⟩).falsenegatives
      from rfl, h, List.countP_eq_length_filter]
    simp
  · have h := (gtSegFold_spec (mkGraph inp).GroundTruth ⟨0, 0, 0⟩).2.1
    rw [show (getHypothesisMetrics inp).oversegmentedcomponents
      = ((mkGraph inp).GroundTruth.foldl gtSegStep
          ⟨0, 0, 0⟩).oversegmentedcomponents
      from rfl, h, List.countP_eq_length_filter]
    simp
  · have h := (gtSegFold_spec (mkGraph inp).GroundTruth ⟨0, 0, 0⟩).2.2
    rw [show (getHypothesisMetrics inp).oversegmentations
      = ((mkGraph inp).GroundTruth.foldl gtSegStep ⟨0, 0, 0⟩).oversegmentations
      from rfl, h]
    simp

/-- Witness for C4 on the concrete page: the single covering hypothesis
region merges the two groundtruth regions (one undersegmented component,
two undersegmentations) and the step equations fire at an edgeless
vertex. -/
theorem vertex_classification_by_edge_count_witness :
    (getHypothesisMetrics pageInput).undersegmentedcomponents = 1
    ∧ (getHypothesisMetrics pageInput).undersegmentations = 2
    ∧ (getHypothesisMetrics pageInput).falsepositives = 0
    ∧ (getHypothesisMetrics pageInput).falsenegatives = 0
    ∧ (hypSegStep [] ⟨0, 0, 0, 0⟩ defaultVertex).falsepositives = 1 := by
  have h := vertex_classification_by_edge_count pageInput
  refine ⟨?_, ?_, ?_, ?_, ?_⟩
  · rw [h.2.2.2.1]
    decide
  · rw [h.2.2.2.2.1]
    decide
  · rw [h.2.2.1]
    decide
  · rw [h.2.2.2.2.2.1]
    decide
  · exact ((vertex_classification_by_edge_count pageInput).1 []
      ⟨0, 0, 0, 0⟩ defaultVertex).1 (by decide)

/-- C5: a Hypothesis vertex is counted in correctsegmentations if and only
if it has exactly one edge and that edge's intersecting pixel count covers
all of the foreground pixels of the matched GroundTruth vertex; any
uncovered foreground pixel of the matched groundtruth region disqualifies
the vertex. -/
theorem correct_segmentation_criterion (inp : GraphInput) :
    (getHypothesisMetrics inp).correctsegmentations
      = ((mkGraph inp).Hypothesis.filter
          (fun v => isCorrectSeg (mkGraph inp).GroundTruth v)).length
    ∧ (∀ (gtVerts : List Vertex) (v : Vertex),
        isCorrectSeg gtVerts v = true ↔
          ∃ e, v.edges = [e] ∧
            e.pixfg_intersecting =
              (gtVerts.getD e.otherIndex defaultVertex).pix_foreground) := by
  constructor
  · have h := (hypSegFold_spec (mkGraph inp).GroundTruth
      (mkGraph inp).Hypothesis ⟨0, 0, 0, 0⟩).1
    rw [show (getHypothesisMetrics inp).correctsegmentations
      = ((mkGraph inp).Hypothesis.foldl
        (hypSegStep (mkGraph inp).GroundTruth)
          ⟨0, 0, 0, 0⟩).correctsegmentations
      from rfl, h, List.countP_eq_length_filter]
    simp
  · intro gtVerts v
    match hv : v.edges with
    | [] => simp [isCorrectSeg, hv]
    | [e] =>
      simp only [isCorrectSeg, hv, beq_iff_eq]
      constructor
      · intro h
        exact ⟨e, rfl, h.symm⟩
      · rintro ⟨e', he', hcov⟩
        have : e' = e := by
          simp at he'
          exact he'.symm
        rw [this] at hcov
        exact hcov.symm
    | e1 :: e2 :: es =>
      simp only [isCorrectSeg, hv]
      constructor
      · intro h
        exact absurd h (by simp)
      · rintro ⟨e', he', -⟩
        exact absurd he' (by simp)

/-- C6: every derived ratio of GroundTruthMetrics and HypothesisMetrics
(foreground-pixel and area shares, per-box shares, average over- and
under-segmentations per box, negative predictive value, specificity,
accuracy, and the per-region recall, fallout, precision and false
discovery rate) evaluates to 0 whenever its denominator is zero; the case
is handled locally by `divOr0` and never propagated as an error. -/
theorem zero_denominator_policy (inp : GraphInput) :
    (∀ a : Rat, divOr0 a 0 = 0)
    ∧ ((getGroundTruthMetrics inp).total_fg_pixels = 0 →
        (getGroundTruthMetrics inp).fg_pixel_share = 0)
    ∧ ((getGroundTruthMetrics inp).total_area = 0 →
        (getGroundTruthMetrics inp).area_share = 0)
    ∧ ((getGroundTruthMetrics inp).total_seg_fg_pixels = 0 →
        ∀ d ∈ (getGroundTruthMetrics inp).descriptions, d.fg_pix_share = 0)
    ∧ ((getGroundTruthMetrics inp).total_seg_area = 0 →
        ∀ d ∈ (getGroundTruthMetrics inp).descriptions, d.area_share = 0)
    ∧ ((getHypothesisMetrics inp).oversegmentedcomponents = 0 →
        (getHypothesisMetrics inp).avg_oversegmentations_perbox = 0)
    ∧ ((getHypothesisMetrics inp).undersegmentedcomponents = 0 →
        (getHypothesisMetrics inp).avg_undersegmentations_perbox = 0)
    ∧ ((getHypothesisMetrics inp).total_negative_fg_pix = 0 →
        (getHypothesisMetrics inp).negative_predictive_val = 0)
    ∧ (gtNegPix inp = 0 → (getHypothesisMetrics inp).specificity = 0)
    ∧ ((getGroundTruthMetrics inp).total_fg_pixels + gtNegPix inp = 0 →
        (getHypothesisMetrics inp).accuracy = 0)
    ∧ (∀ d ∈ (getHypothesisMetrics inp).boxes,
        (vertexGtFg (mkGraph inp).GroundTruth d.vert = 0 → d.recall' = 0)
        ∧ (gtNegPix inp = 0 → d.fallout = 0)
        ∧ (d.num_fg_pixels = 0 → d.precision = 0)
        ∧ (d.true_positive_pix + d.false_positive_pix = 0 →
            d.false_discovery = 0)) := by
  refine ⟨divOr0_zero_den, ?_, ?_, ?_, ?_, ?_, ?_, ?_, ?_, ?_, ?_⟩
  · intro h
    show divOr0 _ ((getGroundTruthMetrics inp).total_fg_pixels : Rat) = 0
    rw [h]
    exact divOr0_zero_den _
  · intro h
    show divOr0 _ ((getGroundTruthMetrics inp).total_area : Rat) = 0
    rw [h]
    exact divOr0_zero_den _
  · intro h d hd
    rcases List.mem_map.1 hd with ⟨v, hv, rfl⟩
    show divOr0 _ ((getGroundTruthMetrics inp).total_seg_fg_pixels : Rat) = 0
    rw [h]
    exact divOr0_zero_den _
  · intro h d hd
    rcases List.mem_map.1 hd with ⟨v, hv, rfl⟩
    show divOr0 _ ((getGroundTruthMetrics inp).total_seg_area : Rat) = 0
    rw [h]
    exact divOr0_zero_den _
  · intro h
    show divOr0 _ ((getHypothesisMetrics inp).oversegmentedcomponents : Rat) = 0
    rw [h]
    exact divOr0_zero_den _
  · intro h
    show divOr0 _ ((getHypothesisMetrics inp).undersegmentedcomponents : Rat) = 0
    rw [h]
    exact divOr0_zero_den _
  · intro h
    have h2 : (getHypothesisMetrics inp).total_true_negative_fg_pix
        + (getHypothesisMetrics inp).total_false_negative_pix = 0 := h
    have h3 : (getHypothesisMetrics inp).total_true_negative_fg_pix = 0
        ∧ (getHypothesisMetrics inp).total_false_negative_pix = 0 := by omega
    show divOr0 _
      (((getHypothesisMetrics inp).total_true_negative_fg_pix : Rat)
        + ((getHypothesisMetrics inp).total_false_negative_pix : Rat)) = 0
    rw [h3.1, h3.2]
    simp [divOr0]
  · intro h
    show divOr0 _ (gtNegPix inp : Rat) = 0
    rw [h]
    exact divOr0_zero_den _
  · intro h
    have h3 : (getGroundTruthMetrics inp).total_fg_pixels = 0
        ∧ gtNegPix inp = 0 := by omega
    show divOr0 _
      (((getGroundTruthMetrics inp).total_fg_pixels : Rat)
        + ((gtNegPix inp : Nat) : Rat)) = 0
    rw [h3.1, h3.2]
    simp [divOr0]
  · intro d hd
    rw [show (getHypothesisMetrics inp).boxes = hypRegionDescs inp from rfl,
      hypRegionDescs] at hd
    rcases List.mem_map.1 hd with ⟨i, hi, rfl⟩
    refine ⟨?_, ?_, ?_, ?_⟩
    · intro h
      show divOr0 _ ((vertexGtFg (mkGraph inp).GroundTruth
        ((mkGraph inp).Hypothesis.getD i defaultVertex) : Nat) : Rat) = 0
      rw [show vertexGtFg (mkGraph inp).GroundTruth
        ((mkGraph inp).Hypothesis.getD i defaultVertex)
        = vertexGtFg (mkGraph inp).GroundTruth
          (mkRegionDescription (mkGraph inp).GroundTruth (gtNegPix inp)
            ((mkGraph inp).Hypothesis.getD i defaultVertex)
            ((hypFPcounts inp).getD i (0, 0))).vert from rfl, h]
      exact divOr0_zero_den _
    · intro h
      show divOr0 _ ((gtNegPix inp : Nat) : Rat) = 0
      rw [h]
      exact divOr0_zero_den _
    · intro h
      show divOr0 _ (((mkRegionDescription (mkGraph inp).GroundTruth
        (gtNegPix inp) ((mkGraph inp).Hypothesis.getD i defaultVertex)
        ((hypFPcounts inp).getD i (0, 0))).num_fg_pixels : Nat) : Rat) = 0
      rw [h]
      exact divOr0_zero_den _
    · intro h
      have h3 : (mkRegionDescription (mkGraph inp).GroundTruth
          (gtNegPix inp) ((mkGraph inp).Hypothesis.getD i defaultVertex)
          ((hypFPcounts inp).getD i (0, 0))).true_positive_pix = 0
          ∧ (mkRegionDescription (mkGraph inp).GroundTruth
            (gtNegPix inp) ((mkGraph inp).Hypothesis.getD i defaultVertex)
            ((hypFPcounts inp).getD i (0, 0))).false_positive_pix = 0 := by
        omega
      show divOr0 _ (((mkRegionDescription (mkGraph inp).GroundTruth
        (gtNegPix inp) ((mkGraph inp).Hypothesis.getD i defaultVertex)
        ((hypFPcounts inp).getD i (0, 0))).true_positive_pix : Rat)
        + ((mkRegionDescription (mkGraph inp).GroundTruth
          (gtNegPix inp) ((mkGraph inp).Hypothesis.getD i defaultVertex)
          ((hypFPcounts inp).getD i (0, 0))).false_positive_pix : Rat))
          = 0
      rw [h3.1, h3.2]
      simp [divOr0]

/-- Witness for C6 on the degenerate page: every denominator is zero and
every affected ratio evaluates to 0. -/
theorem zero_denominator_policy_witness :
    (getGroundTruthMetrics emptyInput).fg_pixel_share = 0
    ∧ (getHypothesisMetrics emptyInput).avg_oversegmentations_perbox = 0
    ∧ (getHypothesisMetrics emptyInput).avg_undersegmentations_perbox = 0
    ∧ (getHypothesisMetrics emptyInput).negative_predictive_val = 0
    ∧ (getHypothesisMetrics emptyInput).specificity = 0
    ∧ (getHypothesisMetrics emptyInput).accuracy = 0
    ∧ divOr0 5 0 = 0 := by
  have h := zero_denominator_policy emptyInput
  exact ⟨h.2.1 (by decide), h.2.2.2.2.2.1 (by decide),
    h.2.2.2.2.2.2.1 (by decide), h.2.2.2.2.2.2.2.1 (by decide),
    h.2.2.2.2.2.2.2.2.1 (by decide), h.2.2.2.2.2.2.2.2.2.1 (by decide),
    h.1 5⟩

/-- C2: edge-structure invariant of the built graph: edges of a hypothesis
vertex reference only groundtruth vertices and vice versa (no edge connects
two vertices of the same side); an edge between hypothesis vertex `i` and
groundtruth vertex `j` appears in the edge list of each endpoint — with the
same intersection pixel count and overlap area, at most once per partner —
if and only if their rectangles geometrically intersect; a vertex whose
rectangle intersects no opposite-side rectangle has an empty edge list. -/
theorem bipartite_edge_structure (inp : GraphInput) (i j : Nat)
    (hi : i < inp.hypboxes.length) (hj : j < inp.gtboxes.length) :
    (∀ e ∈ ((mkGraph inp).Hypothesis.getD i defaultVertex).edges,
      e.otherIndex < inp.gtboxes.length)
    ∧ (∀ e ∈ ((mkGraph inp).GroundTruth.getD j defaultVertex).edges,
      e.otherIndex < inp.hypboxes.length)
    ∧ (∀ e : Edge,
        (e ∈ ((mkGraph inp).Hypothesis.getD i defaultVertex).edges
            ∧ e.otherIndex = j) ↔
          (boxesIntersect (inp.hypboxes.getD i defaultBox)
              (inp.gtboxes.getD j defaultBox) = true
            ∧ e = ⟨j,
              ((((edgeRows inp.hypimg inp.typemode inp.color inp.gtboxes
                inp.hypboxes freshTracker).1.getD i []).getD j (0, 0)).1),
              (interBox (inp.hypboxes.getD i defaultBox)
                (inp.gtboxes.getD j defaultBox)).w *
              (interBox (inp.hypboxes.getD i defaultBox)
                (inp.gtboxes.getD j defaultBox)).h⟩))
    ∧ (∀ e : Edge,
        (e ∈ ((mkGraph inp).GroundTruth.getD j defaultVertex).edges
            ∧ e.otherIndex = i) ↔
          (boxesIntersect (inp.hypboxes.getD i defaultBox)
              (inp.gtboxes.getD j defaultBox) = true
            ∧ e = ⟨i,
              ((((edgeRows inp.hypimg inp.typemode inp.color inp.gtboxes
                inp.hypboxes freshTracker).1.getD i []).getD j (0, 0)).1),
              (interBox (inp.hypboxes.getD i defaultBox)
                (inp.gtboxes.getD j defaultBox)).w *
              (interBox (inp.hypboxes.getD i defaultBox)
                (inp.gtboxes.getD j defaultBox)).h⟩))
    ∧ ((((mkGraph inp).Hypothesis.getD i defaultVertex).edges.map
          (fun e => e.otherIndex)).Nodup
        ∧ (((mkGraph inp).GroundTruth.getD j defaultVertex).edges.map
          (fun e => e.otherIndex)).Nodup)
    ∧ ((∀ j', j' < inp.gtboxes.length →
          boxesIntersect (inp.hypboxes.getD i defaultBox)
            (inp.gtboxes.getD j' defaultBox) = false) →
        ((mkGraph inp).Hypothesis.getD i defaultVertex).edges = [])
    ∧ ((∀ i', i' < inp.hypboxes.length →
          boxesIntersect (inp.hypboxes.getD i' defaultBox)
            (inp.gtboxes.getD j defaultBox) = false) →
        ((mkGraph inp).GroundTruth.getD j defaultVertex).edges = []) := by
  rw [mkGraph_Hypothesis_getD inp i hi, mkGraph_GroundTruth_getD inp j hj]
  simp only [mkHypVertexEdges, mkGtVertexEdges]
  refine ⟨?_, ?_, ?_, ?_, ⟨?_, ?_⟩, ?_, ?_⟩
  · intro e he
    rcases List.mem_filterMap.1 he with ⟨j', hj', hfj'⟩
    by_cases hc : boxesIntersect (inp.hypboxes.getD i defaultBox)
        (inp.gtboxes.getD j' defaultBox) = true
    · rw [if_pos hc] at hfj'
      cases hfj'
      exact List.mem_range.1 hj'
    · rw [if_neg hc] at hfj'
      cases hfj'
  · intro e he
    rcases List.mem_filterMap.1 he with ⟨i', hi', hfi'⟩
    by_cases hc : boxesIntersect (inp.hypboxes.getD i' defaultBox)
        (inp.gtboxes.getD j defaultBox) = true
    · rw [if_pos hc] at hfi'
      cases hfi'
      exact List.mem_range.1 hi'
    · rw [if_neg hc] at hfi'
      cases hfi'
  · intro e
    constructor
    · rintro ⟨he, hoi⟩
      rcases List.mem_filterMap.1 he with ⟨j', hj', hfj'⟩
      by_cases hc : boxesIntersect (inp.hypboxes.getD i defaultBox)
          (inp.gtboxes.getD j' defaultBox) = true
      · rw [if_pos hc] at hfj'
        cases hfj'
        have : j' = j := hoi
        subst this
        exact ⟨hc, rfl⟩
      · rw [if_neg hc] at hfj'
        cases hfj'
    · rintro ⟨hint, rfl⟩
      refine ⟨List.mem_filterMap.2 ⟨j, List.mem_range.2 hj, ?_⟩, rfl⟩
      rw [if_pos hint]
  · intro e
    constructor
    · rintro ⟨he, hoi⟩
      rcases List.mem_filterMap.1 he with ⟨i', hi', hfi'⟩
      by_cases hc : boxesIntersect (inp.hypboxes.getD i' defaultBox)
          (inp.gtboxes.getD j defaultBox) = true
      · rw [if_pos hc] at hfi'
        cases hfi'
        have : i' = i := hoi
        subst this
        exact ⟨hc, rfl⟩
      · rw [if_neg hc] at hfi'
        cases hfi'
    · rintro ⟨hint, rfl⟩
      refine ⟨List.mem_filterMap.2 ⟨i, List.mem_range.2 hi, ?_⟩, rfl⟩
      rw [if_pos hint]
  · apply nodup_otherIndex_filterMap _ _ (List.nodup_range _)
    intro j' e h
    by_cases hc : boxesIntersect (inp.hypboxes.getD i defaultBox)
        (inp.gtboxes.getD j' defaultBox) = true
    · rw [if_pos hc] at h
      cases h
      rfl
    · rw [if_neg hc] at h
      cases h
  · apply nodup_otherIndex_filterMap _ _ (List.nodup_range _)
    intro i' e h
    by_cases hc : boxesIntersect (inp.hypboxes.getD i' defaultBox)
        (inp.gtboxes.getD j defaultBox) = true
    · rw [if_pos hc] at h
      cases h
      rfl
    · rw [if_neg hc] at h
      cases h
  · intro hnone
    rw [List.filterMap_eq_nil_iff]
    intro j' hj'
    rw [if_neg]
    rw [hnone j' (List.mem_range.1 hj')]
    simp
  · intro hnone
    rw [List.filterMap_eq_nil_iff]
    intro i' hi'
    rw [if_neg]
    rw [hnone i' (List.mem_range.1 hi')]
    simp

/-- Witness for C2 on the concrete page at indexes (0, 0): the covering
hypothesis rectangle intersects the left groundtruth rectangle, the edge
with its 4-pixel intersection weight appears in the hypothesis vertex's
edge list, and its mirror appears in the groundtruth vertex's edge list. -/
theorem bipartite_edge_structure_witness :
    (⟨0, 4, 4⟩ : Edge) ∈
      ((mkGraph pageInput).Hypothesis.getD 0 defaultVertex).edges
    ∧ (⟨0, 4, 4⟩ : Edge) ∈
      ((mkGraph pageInput).GroundTruth.getD 0 defaultVertex).edges := by
  have h := bipartite_edge_structure pageInput 0 0 (by decide) (by decide)
  exact ⟨((h.2.2.1 ⟨0, 4, 4⟩).2 (by decide)).1,
    ((h.2.2.2.1 ⟨0, 4, 4⟩).2 (by decide)).1⟩

/-- C3: the pixel classifier counts a pixel only if it is not excluded,
its color matches, and the tracker overlay has not already marked the
coordinate — marking it as a side effect; a matching pixel that is already
marked increments the duplicate count instead and changes nothing else; a
non-matching or excluded pixel changes nothing; consequently, over a whole
multi-rectangle pass, every qualifying coordinate is added to the count
exactly once, no matter how many rectangles overlap it. -/
theorem pixel_classifier_discipline (img : Image) (tm : Bool) (color : Nat)
    (excl : List BOX) :
    (∀ (st : ClassifyResult) (p : Nat × Nat),
      inSomeBox excl p = false →
        ((pixMatches tm color (img.px p.1 p.2) = true →
            st.tracker p.1 p.2 = false →
              classifyStep img tm color excl st p
                  = ⟨st.count + 1, st.dup, markPixel p.1 p.2 st.tracker⟩
                ∧ markPixel p.1 p.2 st.tracker p.1 p.2 = true)
          ∧ (pixMatches tm color (img.px p.1 p.2) = true →
              st.tracker p.1 p.2 = true →
                classifyStep img tm color excl st p
                  = ⟨st.count, st.dup + 1, st.tracker⟩)
          ∧ (pixMatches tm color (img.px p.1 p.2) = false →
              classifyStep img tm color excl st p = st)))
    ∧ (∀ (st : ClassifyResult) (p : Nat × Nat), inSomeBox excl p = true →
        classifyStep img tm color excl st p = st)
    ∧ (∀ (W H : Nat) (bs : List BOX),
        (∀ b ∈ bs, boxInBounds W H b = true) →
        (((classifyBoxes img tm color excl bs freshTracker).1.map
            Prod.fst).sum)
          = ((allPix W H).filter (fun p =>
              (inSomeBox bs p && !(inSomeBox excl p) &&
                pixMatches tm color (img.px p.1 p.2)) = true)).card) := by
  refine ⟨?_, ?_, ?_⟩
  · intro st p he
    refine ⟨fun hm ht => ⟨classifyStep_count img tm color excl st p he hm ht,
        by simp [markPixel]⟩,
      fun hm ht => classifyStep_dup img tm color excl st p he hm ht,
      fun hm => classifyStep_no_match img tm color excl st p hm⟩
  · intro st p he
    exact classifyStep_excluded img tm color excl st p he
  · intro W H bs hbs
    exact classifyBoxes_sum_fresh W H img tm color excl bs hbs

/-- Witness for C3 at concrete pixels: a fresh matching pixel is counted
and marked, re-classifying the same coordinate yields a duplicate, a
non-matching pixel is untouched, an excluded pixel is untouched, and the
whole-pass total equals the cardinality of the qualifying pixel set. -/
theorem pixel_classifier_discipline_witness :
    classifyStep pageInput.hypimg true 1 [] ⟨0, 0, freshTracker⟩ (0, 0)
        = ⟨1, 0, markPixel 0 0 freshTracker⟩
    ∧ classifyStep pageInput.hypimg true 1 []
        ⟨1, 0, markPixel 0 0 freshTracker⟩ (0, 0)
        = ⟨1, 1, markPixel 0 0 freshTracker⟩
    ∧ classifyStep emptyInput.gtimg true 1 [] ⟨0, 0, freshTracker⟩ (0, 0)
        = ⟨0, 0, freshTracker⟩
    ∧ classifyStep pageInput.hypimg true 1 [⟨0, 0, 1, 1⟩]
        ⟨0, 0, freshTracker⟩ (0, 0) = ⟨0, 0, freshTracker⟩
    ∧ ((classifyBoxes pageInput.hypimg true 1 [] pageInput.hypboxes
        freshTracker).1.map Prod.fst).sum
        = ((allPix 4 2).filter (fun p =>
            (inSomeBox pageInput.hypboxes p && !(inSomeBox [] p) &&
              pixMatches true 1 (pageInput.hypimg.px p.1 p.2)) = true)).card := by
  refine ⟨?_, ?_, ?_, ?_, ?_⟩
  · exact ((pixel_classifier_discipline pageInput.hypimg true 1 []).1
      ⟨0, 0, freshTracker⟩ (0, 0) (by decide)).1 (by decide) (by decide) |>.1
  · exact ((pixel_classifier_discipline pageInput.hypimg true 1 []).1
      ⟨1, 0, markPixel 0 0 freshTracker⟩ (0, 0) (by decide)).2.1
        (by decide) (by decide)
  · exact ((pixel_classifier_discipline emptyInput.gtimg true 1 []).1
      ⟨0, 0, freshTracker⟩ (0, 0) (by decide)).2.2 (by decide)
  · exact (pixel_classifier_discipline pageInput.hypimg true 1
      [⟨0, 0, 1, 1⟩]).2.1 ⟨0, 0, freshTracker⟩ (0, 0) (by decide)
  · exact (pixel_classifier_discipline pageInput.hypimg true 1 []).2.2
      4 2 pageInput.hypboxes (by decide)

theorem sum_TP_card (inp : GraphInput) (hval : validInput inp = true) :
    ((hypRegionDescs inp).map (fun d => d.true_positive_pix)).sum
      = ((allPix inp.gtimg.w inp.gtimg.h).filter (fun p =>
          (inSomeBox inp.hypboxes p && inSomeBox inp.gtboxes p &&
            matchHyp inp p) = true)).card := by
  obtain ⟨-, -, hhb, hgb⟩ := validInput_spec inp hval
  rw [sum_TP inp, edgeRows_sum_fresh inp.gtimg.w inp.gtimg.h inp.hypimg
    inp.typemode inp.color inp.gtboxes inp.hypboxes hhb hgb]
  rfl

/-- C9: in every computed HypothesisMetrics record over validated,
consistently colored inputs, the total positive foreground pixels equal
the total true positives plus the total false positives, and the total
negative foreground pixels equal the total foreground pixels minus the
total positive pixels. -/
theorem pixel_total_identities (inp : GraphInput)
    (hval : validInput inp = true) (hcons : consistentImages inp = true) :
    (getHypothesisMetrics inp).total_positive_fg_pix
      = (getHypothesisMetrics inp).total_true_positive_fg_pix
        + (getHypothesisMetrics inp).total_false_positive_pix
    ∧ (getHypothesisMetrics inp).total_negative_fg_pix
      = (getHypothesisMetrics inp).total_fg_pix
        - (getHypothesisMetrics inp).total_positive_fg_pix := by
  constructor
  · rw [show (getHypothesisMetrics inp).total_positive_fg_pix
      = ((mkGraph inp).Hypothesis.map (fun v => v.pix_foreground)).sum
      from rfl]
    rw [show (getHypothesisMetrics inp).total_true_positive_fg_pix
      = ((hypRegionDescs inp).map (fun d => d.true_positive_pix)).sum
      from rfl]
    rw [show (getHypothesisMetrics inp).total_false_positive_pix
      = ((hypRegionDescs inp).map (fun d => d.false_positive_pix)).sum
      from rfl]
    rw [sum_hyp_foreground inp hval, sum_TP_card inp hval, sum_descs_FP inp,
      sum_FP_card inp hval]
    exact (card_filter_pair_split' (allPix inp.gtimg.w inp.gtimg.h)
      (fun p => inSomeBox inp.hypboxes p) (fun p => inSomeBox inp.gtboxes p)
      (fun p => matchHyp inp p)).symm
  · rw [show (getHypothesisMetrics inp).total_negative_fg_pix
      = trueNegPix inp
        + ((gtOverlapRegions inp).map (fun d => d.falsenegativepix)).sum
      from rfl]
    rw [show (getHypothesisMetrics inp).total_fg_pix = totalFgPix inp
      from rfl]
    rw [show (getHypothesisMetrics inp).total_positive_fg_pix
      = ((mkGraph inp).Hypothesis.map (fun v => v.pix_foreground)).sum
      from rfl]
    rw [sum_ogts_FN inp, sum_FN_card inp hval, trueNegPix_card inp,
      totalFgPix_card inp, sum_hyp_foreground inp hval]
    rw [show ((allPix inp.gtimg.w inp.gtimg.h).filter (fun p =>
        (inSomeBox inp.hypboxes p && matchHyp inp p) = true)).card
      = ((allPix inp.gtimg.w inp.gtimg.h).filter (fun p =>
        (inSomeBox inp.hypboxes p && matchGt inp p) = true)).card from
      congrArg Finset.card (filter_match_consistent inp hcons
        (fun p => inSomeBox inp.hypboxes p))]
    have h1 := card_filter_neg_split (allPix inp.gtimg.w inp.gtimg.h)
      (fun p => inSomeBox inp.hypboxes p) (fun p => inSomeBox inp.gtboxes p)
      (fun p => matchGt inp p)
    have h2 := card_filter_total_split (allPix inp.gtimg.w inp.gtimg.h)
      (fun p => inSomeBox inp.hypboxes p) (fun p => matchGt inp p)
    omega

/-- Witness for C9 on the concrete page (valid, consistently colored). -/
theorem pixel_total_identities_witness :
    (getHypothesisMetrics pageInput).total_positive_fg_pix
      = (getHypothesisMetrics pageInput).total_true_positive_fg_pix
        + (getHypothesisMetrics pageInput).total_false_positive_pix
    ∧ (getHypothesisMetrics pageInput).total_negative_fg_pix
      = (getHypothesisMetrics pageInput).total_fg_pix
        - (getHypothesisMetrics pageInput).total_positive_fg_pix :=
  pixel_total_identities pageInput (by decide) (by decide)

/-- C1: pixel conservation: over validated, consistently colored inputs
whose groundtruth rectangles delimit all groundtruth foreground pixels,
the whole-page totals satisfy total_true_positive_fg_pix +
total_false_negative_pix = total foreground pixels of the groundtruth
image — every groundtruth foreground pixel is classified exactly once as
true positive or false negative; moreover, when the groundtruth
rectangles are pairwise non-overlapping, the recorded groundtruth-side
duplicate counts sum to zero. -/
theorem conservation (inp : GraphInput) (hval : validInput inp = true)
    (hcons : consistentImages inp = true) (hcov : gtCoversAllFg inp = true) :
    (getHypothesisMetrics inp).total_true_positive_fg_pix
        + (getHypothesisMetrics inp).total_false_negative_pix
      = (getHypothesisMetrics inp).total_fg_pix
    ∧ (inp.gtboxes.Pairwise (fun a b => boxesIntersect a b = false) →
        (((mkGraph inp).GroundTruth.map
            (fun v => v.pix_foreground_duplicate)).sum = 0
          ∧ (((getHypothesisMetrics inp).overlapgts.map
              (fun d => d.falsenegativepix_duplicates)).sum = 0))) := by
  constructor
  · rw [show (getHypothesisMetrics inp).total_true_positive_fg_pix
      = ((hypRegionDescs inp).map (fun d => d.true_positive_pix)).sum
      from rfl]
    rw [show (getHypothesisMetrics inp).total_false_negative_pix
      = ((gtOverlapRegions inp).map (fun d => d.falsenegativepix)).sum
      from rfl]
    rw [show (getHypothesisMetrics inp).total_fg_pix = totalFgPix inp
      from rfl]
    rw [sum_TP_card inp hval, sum_ogts_FN inp, sum_FN_card inp hval,
      totalFgPix_card inp]
    rw [show ((allPix inp.gtimg.w inp.gtimg.h).filter (fun p =>
        (inSomeBox inp.hypboxes p && inSomeBox inp.gtboxes p &&
          matchHyp inp p) = true)).card
      = ((allPix inp.gtimg.w inp.gtimg.h).filter (fun p =>
        (inSomeBox inp.hypboxes p && inSomeBox inp.gtboxes p &&
          matchGt inp p) = true)).card from
      congrArg Finset.card (filter_match_consistent inp hcons
        (fun p => inSomeBox inp.hypboxes p && inSomeBox inp.gtboxes p))]
    rw [card_filter_pair_split (allPix inp.gtimg.w inp.gtimg.h)
      (fun p => inSomeBox inp.hypboxes p) (fun p => inSomeBox inp.gtboxes p)
      (fun p => matchGt inp p)]
    apply congrArg
    apply Finset.filter_congr
    intro p hp
    rw [mem_allPix] at hp
    by_cases hm : matchGt inp p = true
    · rw [gtCoversAllFg_spec inp hcov p hp.1 hp.2 hm, hm]
      simp
    · have hm' : matchGt inp p = false := by simpa using hm
      rw [hm']
      simp
  · intro hdisj
    constructor
    · rw [sum_gt_foreground_dup inp]
      exact gt_vertex_dups_zero inp hdisj
    · rw [show (getHypothesisMetrics inp).overlapgts = gtOverlapRegions inp
        from rfl, sum_ogts_FN_dup inp]
      exact gt_FN_dups_zero inp hdisj

/-- Witness for C1 on the concrete page: its 8 groundtruth foreground
pixels split into 8 true positives and 0 false negatives, and both
groundtruth-side duplicate totals vanish on its disjoint groundtruth
rectangles. -/
theorem conservation_witness :
    ((getHypothesisMetrics pageInput).total_true_positive_fg_pix
        + (getHypothesisMetrics pageInput).total_false_negative_pix
      = (getHypothesisMetrics pageInput).total_fg_pix)
    ∧ (((mkGraph pageInput).GroundTruth.map
        (fun v => v.pix_foreground_duplicate)).sum = 0)
    ∧ (((getHypothesisMetrics pageInput).overlapgts.map
        (fun d => d.falsenegativepix_duplicates)).sum = 0) := by
  have h := conservation pageInput (by decide) (by decide) (by decide)
  have h2 := h.2 (by decide)
  exact ⟨h.1, h2.1, h2.2⟩

/-- The claim "specificity equals 1 - total_fallout in every computed
record" fails on the degenerate page: with no groundtruth negatives the
zero-denominator policy reports specificity 0 while 1 - total_fallout
is 1. -/
theorem specificity_relation_counterexample :
    (getHypothesisMetrics emptyInput).specificity
      ≠ 1 - (getHypothesisMetrics emptyInput).total_fallout := by
  have h1 : (getHypothesisMetrics emptyInput).specificity = 0 := by
    rw [show (getHypothesisMetrics emptyInput).specificity
      = divOr0 ((trueNegPix emptyInput : Nat) : Rat)
        ((gtNegPix emptyInput : Nat) : Rat) from rfl]
    rw [show gtNegPix emptyInput = 0 from rfl]
    simp [divOr0]
  have h2 : (getHypothesisMetrics emptyInput).total_fallout = 0 := rfl
  rw [h1, h2]
  norm_num

/-- C10 (amended): over validated, consistently colored inputs with a
nonzero groundtruth-negative-pixel denominator, specificity equals 1 minus
total_fallout. -/
theorem specificity_eq_one_sub_fallout (inp : GraphInput)
    (hval : validInput inp = true) (hcons : consistentImages inp = true)
    (hN : gtNegPix inp ≠ 0) :
    (getHypothesisMetrics inp).specificity
      = 1 - (getHypothesisMetrics inp).total_fallout := by
  have hN' : ((gtNegPix inp : Nat) : Rat) ≠ 0 := by
    exact_mod_cast hN
  -- the false-positive total, in pixel-set form over the groundtruth image
  have hfpc : ((hypFPcounts inp).map Prod.fst).sum
      = ((allPix inp.gtimg.w inp.gtimg.h).filter (fun p =>
          (inSomeBox inp.hypboxes p && !(inSomeBox inp.gtboxes p) &&
            matchGt inp p) = true)).card := by
    rw [sum_FP_card inp hval]
    exact congrArg Finset.card (filter_match_consistent inp hcons
      (fun p => inSomeBox inp.hypboxes p && !(inSomeBox inp.gtboxes p)))
  -- true negatives plus false positives exhaust the groundtruth negatives
  have hnat : trueNegPix inp + ((hypFPcounts inp).map Prod.fst).sum
      = gtNegPix inp := by
    rw [hfpc, trueNegPix_card inp, gtNegPix_card inp]
    exact card_filter_tn_fp (allPix inp.gtimg.w inp.gtimg.h)
      (fun p => inSomeBox inp.hypboxes p) (fun p => inSomeBox inp.gtboxes p)
      (fun p => matchGt inp p)
  -- the summed fallout is the false-positive total over the denominator
  have hNatSum : ((List.range inp.hypboxes.length).map (fun i =>
      ((hypFPcounts inp).getD i (0, 0)).1)).sum
      = ((hypFPcounts inp).map Prod.fst).sum := by
    rw [show inp.hypboxes.length = (hypFPcounts inp).length from
      (classifyBoxes_length inp.hypimg inp.typemode inp.color inp.gtboxes
        inp.hypboxes freshTracker).symm]
    exact sum_map_getD (hypFPcounts inp) Prod.fst (0, 0)
  have hfall : (getHypothesisMetrics inp).total_fallout
      = (((hypFPcounts inp).map Prod.fst).sum : Rat)
          / ((gtNegPix inp : Nat) : Rat) := by
    rw [show (getHypothesisMetrics inp).total_fallout
      = ((hypRegionDescs inp).map (fun d => d.fallout)).sum from rfl]
    rw [show (hypRegionDescs inp).map (fun d => d.fallout)
      = (List.range inp.hypboxes.length).map (fun i =>
          divOr0 (((hypFPcounts inp).getD i (0, 0)).1 : Rat)
            ((gtNegPix inp : Nat) : Rat)) from by
      rw [hypRegionDescs, List.map_map]
      rfl]
    rw [List.map_congr_left (fun i _ => by
      rw [divOr0, if_neg hN'] :
      ∀ i ∈ List.range inp.hypboxes.length,
        divOr0 (((hypFPcounts inp).getD i (0, 0)).1 : Rat)
          ((gtNegPix inp : Nat) : Rat)
        = (((hypFPcounts inp).getD i (0, 0)).1 : Rat)
          / ((gtNegPix inp : Nat) : Rat))]
    rw [show (List.range inp.hypboxes.length).map (fun i =>
        (((hypFPcounts inp).getD i (0, 0)).1 : Rat)
          / ((gtNegPix inp : Nat) : Rat))
      = ((List.range inp.hypboxes.length).map (fun i =>
          (((hypFPcounts inp).getD i (0, 0)).1 : Rat))).map
            (fun x => x / ((gtNegPix inp : Nat) : Rat)) from by
      rw [List.map_map]
      rfl]
    rw [list_sum_div]
    congr 1
    rw [show (List.range inp.hypboxes.length).map (fun i =>
        (((hypFPcounts inp).getD i (0, 0)).1 : Rat))
      = ((List.range inp.hypboxes.length).map (fun i =>
          ((hypFPcounts inp).getD i (0, 0)).1)).map
            (fun x : Nat => (x : Rat)) from by
      rw [List.map_map]
      rfl]
    rw [hNatSum.symm]
    exact (Nat.cast_list_sum _).symm
  rw [hfall]
  rw [show (getHypothesisMetrics inp).specificity
    = divOr0 ((trueNegPix inp : Nat) : Rat) ((gtNegPix inp : Nat) : Rat)
    from rfl]
  rw [divOr0, if_neg hN']
  have hle : ((hypFPcounts inp).map Prod.fst).sum ≤ gtNegPix inp := by omega
  have hTN : trueNegPix inp
      = gtNegPix inp - ((hypFPcounts inp).map Prod.fst).sum := by omega
  rw [hTN, Nat.cast_sub hle, sub_div, div_self hN']

/-- Witness for C10's amended claim on the page with one uncovered
foreground pixel: the denominator is nonzero and the relation holds. -/
theorem specificity_eq_one_sub_fallout_witness :
    (getHypothesisMetrics negInput).specificity
      = 1 - (getHypothesisMetrics negInput).total_fallout :=
  specificity_eq_one_sub_fallout negInput (by decide) (by decide) (by decide)

end MathFinder
